import Mathlib

/-!
Shallow embedding of `FileFolderMeta.py` (niemasd/FileFolderMeta).

The program builds a metadata tree for a root path: directories list and sort
their children; files carry a byte payload, a size, four content hashes and two
three-state timestamps; container archives (ZIP/TAR/ISO/GCM/TGC/WII, read
through the external `niemafs` readers) are assembled from a flat stream of
`(path, mod_time, payload)` member records.

Modelling choices:
- Bytes are `List Nat`; paths are `String` with CPython `pathlib` name/suffix
  semantics re-implemented on character lists.
- Python's mutable objects live in an explicit heap (`Heap := List Obj`);
  object attributes are fields of `Obj`, with `Option` encoding Python's
  `None` / "not yet initialized" and `some ""` encoding the intentionally
  blank timestamp sentinel `''`.
- External collaborators (filesystem, `os.stat`, `hashlib`/`zlib` digests,
  `gzip`/`lzma` decompression, the `niemafs` container readers) are fields of
  an `Env` record: the embedding treats them as opaque, exactly as the spec
  scopes them out; a reader either fails (exception, `none`) or yields its
  record list plus the format-specific extra fields it can be queried for.
- Python exceptions are `Except PyErr`; the blanket `except:` in `get_obj`
  catches every `PyErr`.
- The mutually recursive functions (`get_obj`, `FFM_Directory.__iter__`,
  `FFM_NiemaFS.__iter__`, `to_dict`) are built by structural recursion on a
  fuel parameter (`ffmFuncs`): fuel `0` returns the artificial `fuelOut`
  error, fuel `n+1` builds each function from the fuel-`n` family, so any
  terminating Python run is reproduced at a large enough fuel.
-/

namespace FFM

/-- Python exceptions that the modelled code can raise.  `fuelOut` is not a
Python exception: it is the artificial out-of-fuel marker of the embedding. -/
inductive PyErr where
  | keyError
  | indexError
  | typeError
  | valueError
  | readerError
  | attributeError
  | fuelOut
deriving DecidableEq

/-- JSON-like values appearing in a serialized node (`to_dict` output).
`arr` holds a list of child dictionaries. -/
inductive JVal where
  | s : String → JVal
  | n : Nat → JVal
  | arr : List (List (String × JVal)) → JVal

/-- A Python dict as an insertion-ordered association list (Python 3 dicts
preserve insertion order and hold each key once). -/
abbrev JDict := List (String × JVal)

/-- Python `d[k] = v`: update the value in place if the key is present
(keeping its position), otherwise append the new key at the end. -/
def dictSet : JDict → String → JVal → JDict
  | [], k, v => [(k, v)]
  | (k', v') :: rest, k, v =>
    if k' = k then (k, v) :: rest else (k', v') :: dictSet rest k v

/-- Python `d | e` (dict merge): fold the entries of `e` into `d` with
`dictSet` semantics. -/
def dictMerge (d e : JDict) : JDict :=
  e.foldl (fun acc p => dictSet acc p.1 p.2) d

/-- Lookup of a key in a dict. -/
def dictLookup : JDict → String → Option JVal
  | [], _ => none
  | (k', v) :: rest, k => if k' = k then some v else dictLookup rest k

/-- The key list of a dict, in order. -/
def dictKeys (d : JDict) : List String := d.map (·.1)

/-! ## Path and extension helpers (CPython `pathlib` semantics) -/

/-- Split a character list at every occurrence of `c` (like Python
`str.split`). -/
def splitOnChar (c : Char) : List Char → List (List Char)
  | [] => [[]]
  | x :: xs =>
    let r := splitOnChar c xs
    if x = c then [] :: r
    else
      match r with
      | [] => [[x]]
      | y :: ys => (x :: y) :: ys

/-- Join character-list segments with `'/'` (inverse of splitting a path). -/
def joinSlash : List (List Char) → List Char
  | [] => []
  | [x] => x
  | x :: rest => x ++ '/' :: joinSlash rest

/-- `PurePath.name`: the final path component. -/
def pathName (p : String) : String :=
  String.mk ((splitOnChar '/' p.toList).getLastD [])

/-- `PurePath.parent` rendered as a string: all components but the last. -/
def pathParent (p : String) : String :=
  String.mk (joinSlash ((splitOnChar '/' p.toList).dropLast))

/-- Whether `'/' in str(path)` holds. -/
def hasSlash (p : String) : Bool := p.toList.any (· = '/')

/-- CPython `PurePath.suffix` of a file name: `name[i:]` for the last dot
index `i` when `0 < i < len(name) - 1`, else the empty string. -/
def pySuffixChars (l : List Char) : List Char :=
  let afterRev := l.reverse.takeWhile (· ≠ '.')
  if afterRev.length = l.length then []
  else
    let i := l.length - afterRev.length - 1
    if 0 < i ∧ i < l.length - 1 then l.drop i else []

/-- `PurePath.suffix` of the final component of a path. -/
def pySuffix (p : String) : String := String.mk (pySuffixChars (pathName p).toList)

/-- CPython `PurePath.suffixes` of a path: strip leading dots from the final
component, split on `'.'`, drop the stem, re-prefix each piece with `'.'`. -/
def pySuffixes (p : String) : List String :=
  ((splitOnChar '.' ((pathName p).toList.dropWhile (· = '.'))).tail).map
    (fun l => String.mk ('.' :: l))

/-- Strip leading and trailing whitespace (Python `str.strip`). -/
def stripChars (l : List Char) : List Char :=
  ((l.dropWhile Char.isWhitespace).reverse.dropWhile Char.isWhitespace).reverse

/-- `clean_ext`: `ext.replace('.','').strip().upper()` (extensions are ASCII,
so `Char.toUpper` matches Python `str.upper`). -/
def clean_ext (ext : String) : String :=
  String.mk ((stripChars (ext.toList.filter (· ≠ '.'))).map Char.toUpper)

/-- `COMPRESSED_EXTENSIONS = {'GZ', 'XZ'}`. -/
def COMPRESSED_EXTENSIONS : List String := ["GZ", "XZ"]

/-- Python `lst[-2]`: valid exactly when the list has at least two elements,
otherwise an `IndexError`. -/
def idxNeg2 (l : List String) : Except PyErr String :=
  if 2 ≤ l.length then .ok (l.getD (l.length - 2) "")
  else .error .indexError

/-- The format-hint derivation of `get_obj` (lines 273-275):
`ext = clean_ext(path.suffix)`, and when that names a compression wrapper,
`ext = clean_ext(path.suffixes[-2])` — the `[-2]` access sits outside the
`try` block. -/
def derive_hint (p : String) : Except PyErr String :=
  let ext := clean_ext (pySuffix p)
  if ext ∈ COMPRESSED_EXTENSIONS then
    match idxNeg2 (pySuffixes p) with
    | .error e => .error e
    | .ok s => .ok (clean_ext s)
  else
    .ok ext

/-- Keys of `INPUT_FORMAT_TO_CLASS` as present at call time (the `AUTO`
binding is added right after `get_obj` is defined, before any call, and the
WII entry is modelled as successfully registered). -/
def INPUT_FORMAT_KEYS : List String :=
  ["BIN", "DIR", "FILE", "GCM", "ISO", "TAR", "TGC", "ZIP", "WII", "AUTO"]

/-- The concrete container-format tag that the class chosen for an extension
carries (`FFM_IsoArchive` for `BIN`/`ISO`, `FFM_TgcArchive` sets `TGC`, …);
`none` for the non-container entries `DIR`, `FILE`, `AUTO` and for unknown
extensions. -/
def FORMAT_TO_TAG (ext : String) : Option String :=
  if ext = "BIN" then some "ISO"
  else if ext = "GCM" then some "GCM"
  else if ext = "ISO" then some "ISO"
  else if ext = "TAR" then some "TAR"
  else if ext = "TGC" then some "TGC"
  else if ext = "ZIP" then some "ZIP"
  else if ext = "WII" then some "WII"
  else none

/-! ## External collaborators and the object heap -/

/-- Result of `os.stat`: creation and modification timestamps. -/
structure StatResult where
  st_ctime : Int
  st_mtime : Int
deriving DecidableEq

/-- One record of a `niemafs` reader stream: member path, member modification
time (already rendered with `TIMESTAMP_FORMAT_STRING`, which is what the code
immediately does with it) or `none`, and payload bytes or `none` (a directory
record). -/
structure FSRec where
  path : String
  mtime : Option String
  payload : Option (List Nat)
deriving DecidableEq

/-- An opened `niemafs` container reader: the flat member-record stream it
yields, plus the format-specific extra fields it answers at serialization
time (ISO volume-descriptor/block-size queries, GCM/WII header queries),
abstracted as the ordered key-value assignments those queries produce. -/
structure Reader where
  records : List FSRec
  extras : JDict

/-- The dynamic class of an entity object. -/
inductive EKind where
  | dir
  | file
  | nfs (fmt : String)
deriving DecidableEq

/-- A Python entity object: the union of the attributes of `FFM_Directory`,
`FFM_File` and `FFM_NiemaFS`.  `none` is Python `None` ("not yet
initialized"); for the timestamps `some ""` is the intentionally blank
sentinel `''`. -/
structure Obj where
  kind : EKind
  path : String
  data : Option (List Nat)
  stat_result : Option StatResult
  create_time : Option String
  mod_time : Option String
  children : Option (List Nat)
  fs : Option Reader

/-- The object heap: objects addressed by allocation index. -/
abbrev Heap := List Obj

/-- Dummy object returned for a dangling reference (never reached on the
modelled runs). -/
def defaultObj : Obj :=
  { kind := .file, path := "", data := none, stat_result := none,
    create_time := none, mod_time := none, children := none, fs := none }

/-- Read an object from the heap. -/
def hget (h : Heap) (i : Nat) : Obj := (h[i]?).getD defaultObj

/-- Mutate the object at index `i` with `f`. -/
def objUpdate (h : Heap) (i : Nat) (f : Obj → Obj) : Heap :=
  h.set i (f (hget h i))

/-- `FFM_Directory.__init__`: `data=None`, `children=None`. -/
def mkDirObj (path : String) : Obj :=
  { kind := .dir, path := path, data := none, stat_result := none,
    create_time := none, mod_time := none, children := none, fs := none }

/-- `FFM_File.__init__`: payload as given, lazy fields `None`. -/
def mkFileObj (path : String) (data : Option (List Nat)) : Obj :=
  { kind := .file, path := path, data := data, stat_result := none,
    create_time := none, mod_time := none, children := none, fs := none }

/-- `FFM_NiemaFS.__init__` (through the per-format subclasses): format tag,
payload as given, `children=None`, `fs=None`. -/
def mkNfsObj (fmt : String) (path : String) (data : Option (List Nat)) : Obj :=
  { kind := .nfs fmt, path := path, data := data, stat_result := none,
    create_time := none, mod_time := none, children := none, fs := none }

/-- The external collaborators: filesystem queries, stat, timestamp
rendering, the two decompressors (`none` = the library raised), the container
reader constructors (`none` = parsing the bytes as that format raised), and
the four content digests of `HASH_FUNCTIONS` (hex strings without the `0x`
prefix, which the code adds itself). -/
structure Env where
  is_dir : String → Bool
  glob : String → List String
  read_file : String → List Nat
  stat : String → StatResult
  fmtTime : Int → String
  gzip_d : List Nat → Option (List Nat)
  xz_d : List Nat → Option (List Nat)
  open_fs : String → List Nat → Option Reader
  crc32hex : List Nat → String
  md5hex : List Nat → String
  sha1hex : List Nat → String
  sha256hex : List Nat → String

/-- `decompress(path, data)`: dispatch on `clean_ext(path.suffix)`. -/
def decompress (env : Env) (path : String) (data : List Nat) :
    Except PyErr (List Nat) :=
  let ext := clean_ext (pySuffix path)
  if ext = "GZ" then
    match env.gzip_d data with
    | some r => .ok r
    | none => .error .valueError
  else if ext = "XZ" then
    match env.xz_d data with
    | some r => .ok r
    | none => .error .valueError
  else
    .ok data

/-- `HASH_FUNCTIONS`, iterated in `sorted(HASH_FUNCTIONS.keys())` order
(already alphabetical): each entry prefixes the digest with `'0x'`. -/
def HASH_FUNCTIONS (env : Env) : List (String × (List Nat → String)) :=
  [("crc32", fun x => "0x" ++ env.crc32hex x),
   ("md5", fun x => "0x" ++ env.md5hex x),
   ("sha1", fun x => "0x" ++ env.sha1hex x),
   ("sha256", fun x => "0x" ++ env.sha256hex x)]

/-! ## Lazy, memoized metadata accessors of `FFM_File` -/

/-- `FFM_File.get_data`: read the file from disk on first call, then reuse
the stored payload. -/
def objGetData (env : Env) (i : Nat) (h : Heap) : List Nat × Heap :=
  match (hget h i).data with
  | some d => (d, h)
  | none =>
    let d := env.read_file (hget h i).path
    (d, objUpdate h i (fun o => { o with data := some d }))

/-- `FFM_File.get_size`: length of `get_data()`. -/
def objGetSize (env : Env) (i : Nat) (h : Heap) : Nat × Heap :=
  let (d, h') := objGetData env i h
  (d.length, h')

/-- `FFM_File.stat`: memoized `path.stat()`. -/
def objStat (env : Env) (i : Nat) (h : Heap) : StatResult × Heap :=
  match (hget h i).stat_result with
  | some s => (s, h)
  | none =>
    let s := env.stat (hget h i).path
    (s, objUpdate h i (fun o => { o with stat_result := some s }))

/-- `FFM_File.get_create_time`: `''` short-circuits to `None`; otherwise
resolve once from `stat().st_ctime` (the `fromtimestamp/astimezone/strftime`
chain is the external `fmtTime`), then return the stored value. -/
def objGetCreateTime (env : Env) (i : Nat) (h : Heap) : Option String × Heap :=
  if (hget h i).create_time = some "" then (none, h)
  else
    match (hget h i).create_time with
    | some v => (some v, h)
    | none =>
      let (s, h') := objStat env i h
      let v := env.fmtTime s.st_ctime
      (some v, objUpdate h' i (fun o => { o with create_time := some v }))

/-- `FFM_File.get_mod_time`: same three-state protocol on `st_mtime`. -/
def objGetModTime (env : Env) (i : Nat) (h : Heap) : Option String × Heap :=
  if (hget h i).mod_time = some "" then (none, h)
  else
    match (hget h i).mod_time with
    | some v => (some v, h)
    | none =>
      let (s, h') := objStat env i h
      let v := env.fmtTime s.st_mtime
      (some v, objUpdate h' i (fun o => { o with mod_time := some v }))

/-- The hash computation `HASH_FUNCTIONS[k](self.get_data())` for one
algorithm name (`none` when the name is not a known algorithm). -/
def objGetHash (env : Env) (k : String) (i : Nat) (h : Heap) :
    Option String × Heap :=
  let (d, h') := objGetData env i h
  match (HASH_FUNCTIONS env).find? (fun kf => kf.1 = k) with
  | some kf => (some (kf.2 d), h')
  | none => (none, h')

/-! ## Serialization of the non-recursive layers -/

/-- `FFM_Entity.to_dict` / `FFM_OnDisk.to_dict`: `{'name': self.name}` where
`self.name = path.name`. -/
def ffm_entity_to_dict (o : Obj) : JDict :=
  [("name", JVal.s (pathName o.path))]

/-- `FFM_File.to_dict`: name, `format='FILE'`, `size`, the four hashes in
sorted key order, then each timestamp only when its accessor returned a
value. -/
def ffm_file_to_dict (env : Env) (i : Nat) (h : Heap) : JDict × Heap :=
  let (d, h1) := objGetData env i h
  let base := dictMerge (ffm_entity_to_dict (hget h1 i))
    [("format", JVal.s "FILE"), ("size", JVal.n d.length)]
  let (d2, h2) := objGetData env i h1
  let withHashes := dictMerge base
    ((HASH_FUNCTIONS env).map (fun kf => (kf.1, JVal.s (kf.2 d2))))
  let (ct, h3) := objGetCreateTime env i h2
  let out1 :=
    match ct with
    | some v => dictSet withHashes "create_time" (JVal.s v)
    | none => withHashes
  let (mt, h4) := objGetModTime env i h3
  let out2 :=
    match mt with
    | some v => dictSet out1 "mod_time" (JVal.s v)
    | none => out1
  (out2, h4)

/-! ## The mutually recursive family: dispatcher, iterators, serializer -/

/-- The four mutually recursive operations at one recursion depth. -/
structure Funcs where
  get_obj : String → Option (List Nat) → Heap → Except PyErr (Nat × Heap)
  nfsIter : Nat → Heap → Except PyErr (List Nat × Heap)
  dirIter : Nat → Heap → Except PyErr (List Nat × Heap)
  to_dict : Nat → Heap → Except PyErr (JDict × Heap)

/-- Depth-zero family: every call is out of fuel. -/
def bottomFuncs : Funcs :=
  { get_obj := fun _ _ _ => .error .fuelOut,
    nfsIter := fun _ _ => .error .fuelOut,
    dirIter := fun _ _ => .error .fuelOut,
    to_dict := fun _ _ => .error .fuelOut }

/-- Lexicographic less-or-equal on code points, Python's string order (and
extensionally the order `sorted` uses on names). -/
def charListLe : List Char → List Char → Bool
  | [], _ => true
  | _ :: _, [] => false
  | x :: xs, y :: ys =>
    if x.toNat < y.toNat then true
    else if y.toNat < x.toNat then false
    else charListLe xs ys

/-- Lexicographic less-or-equal on strings by code points. -/
def strLeb (a b : String) : Bool := charListLe a.toList b.toList

/-- Stable insertion into a list sorted by a string key: `x` goes in front of
the first element whose key is strictly greater, after all elements with a
smaller-or-equal key. -/
def insertByKey (key : Nat → String) (x : Nat) : List Nat → List Nat
  | [] => [x]
  | y :: ys => if strLeb (key x) (key y) then x :: y :: ys else y :: insertByKey key x ys

/-- Stable sort by a string key (extensionally equal to Python's stable
`sorted(..., key=...)` for a total key order). -/
def sortByKey (key : Nat → String) (l : List Nat) : List Nat :=
  l.foldr (insertByKey key) []

/-- The name an entity object answers for `self.name` (set from `path.name`
at construction; the path attribute is never reassigned). -/
def objName (h : Heap) (i : Nat) : String := pathName (hget h i).path

/-- The attribute overwrites `FFM_NiemaFS.__iter__` performs on a member
entity obtained from `get_obj`: store the record's payload, blank the
creation time (the `''` sentinel), and set the modification time to the
record's rendered timestamp, or to the sentinel when the reader gave none. -/
def memberInit (mt : Option String) (d : List Nat) (o : Obj) : Obj :=
  { o with data := some d, create_time := some "",
           mod_time := some (match mt with | none => "" | some t => t) }

/-- The loop body of `FFM_NiemaFS.__iter__` over the reader's record stream:
create the member entity (a bare `FFM_Directory` for a payload-less record,
otherwise re-enter `get_obj` and then overwrite `data`, blank `create_time`
and set `mod_time` from the record), then attach it to the entity previously
registered for the parent path — `KeyError` when that path was never seen,
`AttributeError` when the registered parent is a plain file (no `children`
attribute) — or to the container itself when the member path has no `'/'`. -/
def nfsLoop (env : Env)
    (getObjF : String → Option (List Nat) → Heap → Except PyErr (Nat × Heap)) :
    List FSRec → List (String × Nat) → List Nat → Heap →
    Except PyErr (List Nat × Heap)
  | [], _, acc, h => .ok (acc, h)
  | rec0 :: rest, pmap, acc, h =>
    let mk : Except PyErr (Nat × Heap) :=
      match rec0.payload with
      | none => .ok (h.length, h ++ [mkDirObj rec0.path])
      | some d0 =>
        match getObjF rec0.path (some d0) h with
        | .error e => .error e
        | .ok (i, h1) => .ok (i, objUpdate h1 i (memberInit rec0.mtime d0))
    match mk with
    | .error e => .error e
    | .ok (i, h1) =>
      if hasSlash rec0.path then
        match pmap.lookup (pathParent rec0.path) with
        | none => .error .keyError
        | some pid =>
          if (hget h1 pid).kind = .file then .error .attributeError
          else
            let h2 := objUpdate h1 pid (fun o =>
              { o with children := some ((o.children.getD []) ++ [i]) })
            nfsLoop env getObjF rest ((rec0.path, i) :: pmap) acc h2
      else
        nfsLoop env getObjF rest ((rec0.path, i) :: pmap) (acc ++ [i]) h1

/-- `FFM_NiemaFS.__iter__` at one recursion depth: memoized on `children`;
opens the reader once from the (possibly decompressed) own payload, then runs
the record loop and stores the top-level children. -/
def mkNfsIter (env : Env) (prev : Funcs) : Nat → Heap → Except PyErr (List Nat × Heap) :=
  fun i h =>
    match (hget h i).children with
    | some cs => .ok (cs, h)
    | none =>
      let fsStep : Except PyErr (Reader × Heap) :=
        match (hget h i).fs with
        | some r => .ok (r, h)
        | none =>
          let (d, h1) := objGetData env i h
          match decompress env (hget h1 i).path d with
          | .error e => .error e
          | .ok dd =>
            match env.open_fs (match (hget h1 i).kind with
                               | .nfs fmt => fmt
                               | _ => "") dd with
            | none => .error .readerError
            | some r => .ok (r, objUpdate h1 i (fun o => { o with fs := some r }))
      match fsStep with
      | .error e => .error e
      | .ok (r, h1) =>
        match nfsLoop env prev.get_obj r.records [] [] h1 with
        | .error e => .error e
        | .ok (kids, h2) =>
          .ok (kids, objUpdate h2 i (fun o => { o with children := some kids }))

/-- `get_obj` mapped over a list of paths (the generator feeding `sorted` in
`FFM_Directory.__iter__`), threading the heap; any raise propagates. -/
def mapGetObj (getObjF : String → Option (List Nat) → Heap → Except PyErr (Nat × Heap)) :
    List String → Heap → Except PyErr (List Nat × Heap)
  | [], h => .ok ([], h)
  | p :: rest, h =>
    match getObjF p none h with
    | .error e => .error e
    | .ok (i, h1) =>
      match mapGetObj getObjF rest h1 with
      | .error e => .error e
      | .ok (ids, h2) => .ok (i :: ids, h2)

/-- `FFM_Directory.__iter__` at one recursion depth: memoized on `children`;
otherwise `sorted((get_obj(p) for p in self.path.glob('*')), key=name)`. -/
def mkDirIter (env : Env) (prev : Funcs) : Nat → Heap → Except PyErr (List Nat × Heap) :=
  fun i h =>
    match (hget h i).children with
    | some cs => .ok (cs, h)
    | none =>
      match mapGetObj prev.get_obj (env.glob (hget h i).path) h with
      | .error e => .error e
      | .ok (ids, h1) =>
        let sorted := sortByKey (fun j => objName h1 j) ids
        .ok (sorted, objUpdate h1 i (fun o => { o with children := some sorted }))

/-- The trial construction of `get_obj` for a recognized extension:
`tmp = INPUT_FORMAT_TO_CLASS[ext](path, data=data); list(tmp)`.
`FFM_Directory` rejects the `data` keyword (`TypeError`); `FFM_File`
constructs but is not iterable (`TypeError` from `list`); `AUTO` maps to
`get_obj` itself, whose result is then materialized by `list`; a container
class allocates an `FFM_NiemaFS` with its format tag and materializes it. -/
def trialConstruct (env : Env) (prev : Funcs) (ext path : String)
    (data : Option (List Nat)) (h : Heap) : Except PyErr (Nat × Heap) :=
  if ext = "DIR" then .error .typeError
  else if ext = "FILE" then .error .typeError
  else if ext = "AUTO" then
    match prev.get_obj path data h with
    | .error e => .error e
    | .ok (i, h1) =>
      match (hget h1 i).kind with
      | .file => .error .typeError
      | .dir =>
        match prev.dirIter i h1 with
        | .error e => .error e
        | .ok (_, h2) => .ok (i, h2)
      | .nfs _ =>
        match prev.nfsIter i h1 with
        | .error e => .error e
        | .ok (_, h2) => .ok (i, h2)
  else
    match FORMAT_TO_TAG ext with
    | none => .error .keyError
    | some fmt =>
      let i := h.length
      match mkNfsIter env prev i (h ++ [mkNfsObj fmt path data]) with
      | .error e => .error e
      | .ok (_, h2) => .ok (i, h2)

/-- `get_obj(path, data)` at one recursion depth: a directory path returns a
`FFM_Directory` unconditionally; otherwise derive the extension hint (the
`suffixes[-2]` re-derivation can raise, outside any `try`), attempt the trial
construction for a recognized hint with every failure silently discarded, and
default to a plain `FFM_File`.  A failed trial's allocations are dropped from
the heap: in Python they stay behind as unreachable garbage, which no later
step can observe, so the two heaps agree on everything reachable. -/
def mkGetObj (env : Env) (prev : Funcs) :
    String → Option (List Nat) → Heap → Except PyErr (Nat × Heap) :=
  fun path data h =>
    if env.is_dir path then .ok (h.length, h ++ [mkDirObj path])
    else
      match derive_hint path with
      | .error e => .error e
      | .ok ext =>
        if INPUT_FORMAT_KEYS.contains ext then
          match trialConstruct env prev ext path data h with
          | .ok r => .ok r
          | .error _ => .ok (h.length, h ++ [mkFileObj path data])
        else
          .ok (h.length, h ++ [mkFileObj path data])

/-- `to_dict` mapped over children ids, threading the heap. -/
def mapToDict (td : Nat → Heap → Except PyErr (JDict × Heap)) :
    List Nat → Heap → Except PyErr (List JDict × Heap)
  | [], h => .ok ([], h)
  | i :: rest, h =>
    match td i h with
    | .error e => .error e
    | .ok (d, h1) =>
      match mapToDict td rest h1 with
      | .error e => .error e
      | .ok (ds, h2) => .ok (d :: ds, h2)

/-- `to_dict` at one recursion depth, dispatched on the dynamic class:
directories emit name, `format='DIR'` and sorted children; plain files emit
the `FFM_File` dictionary; containers emit the `FFM_File` dictionary, then
the children list, then the format-specific extra fields the reader answers
(only the ISO/GCM/WII branches query any), and overwrite `format` with the
concrete tag last. -/
def mkToDict (env : Env) (prev : Funcs) : Nat → Heap → Except PyErr (JDict × Heap) :=
  fun i h =>
    match (hget h i).kind with
    | .file => .ok (ffm_file_to_dict env i h)
    | .dir =>
      match mkDirIter env prev i h with
      | .error e => .error e
      | .ok (cs, h1) =>
        match mapToDict prev.to_dict cs h1 with
        | .error e => .error e
        | .ok (ds, h2) =>
          .ok (dictMerge (ffm_entity_to_dict (hget h2 i))
            [("format", JVal.s "DIR"), ("children", JVal.arr ds)], h2)
    | .nfs fmt =>
      let (base, h1) := ffm_file_to_dict env i h
      match mkNfsIter env prev i h1 with
      | .error e => .error e
      | .ok (cs, h2) =>
        match mapToDict prev.to_dict cs h2 with
        | .error e => .error e
        | .ok (ds, h3) =>
          let out1 := dictMerge base [("children", JVal.arr ds)]
          let extras :=
            match (hget h3 i).fs with
            | some r => r.extras
            | none => []
          let out2 :=
            if fmt = "ISO" ∨ fmt = "GCM" ∨ fmt = "WII" then
              extras.foldl (fun o kv => dictSet o kv.1 kv.2) out1
            else out1
          .ok (dictSet out2 "format" (JVal.s fmt), h3)

/-- The fuel-indexed family of the four mutually recursive operations: depth
`n+1` builds each from the depth-`n` family, so a terminating Python
execution is reproduced verbatim at any sufficient fuel. -/
def ffmFuncs (env : Env) : Nat → Funcs
  | 0 => bottomFuncs
  | fuel + 1 =>
    let prev := ffmFuncs env fuel
    { get_obj := mkGetObj env prev,
      nfsIter := mkNfsIter env prev,
      dirIter := mkDirIter env prev,
      to_dict := mkToDict env prev }

/-! ## Result projections used to state facts about computed runs -/

/-- The dictionary produced by a successful `to_dict` run (empty on error). -/
def toDictD (env : Env) (prev : Funcs) (i : Nat) (h : Heap) : JDict :=
  match mkToDict env prev i h with
  | .ok (d, _) => d
  | .error _ => []

/-- The heap left by a successful `to_dict` run (empty on error). -/
def toDictH (env : Env) (prev : Funcs) (i : Nat) (h : Heap) : Heap :=
  match mkToDict env prev i h with
  | .ok (_, h') => h'
  | .error _ => []

/-- Whether a `to_dict` run succeeded. -/
def toDictOk (env : Env) (prev : Funcs) (i : Nat) (h : Heap) : Bool :=
  match mkToDict env prev i h with
  | .ok _ => true
  | .error _ => false

/-! ## Dictionary lemmas -/

theorem dictKeys_cons (a : String) (b : JVal) (rest : JDict) :
    dictKeys ((a, b) :: rest) = a :: dictKeys rest := rfl

theorem contains_true_iff (l : List String) (a : String) :
    l.contains a = true ↔ a ∈ l := by
  simp [List.contains, List.elem_iff]

theorem dictLookup_dictSet_self (d : JDict) (k : String) (v : JVal) :
    dictLookup (dictSet d k v) k = some v := by
  induction d with
  | nil => simp [dictSet, dictLookup]
  | cons p rest ih =>
    obtain ⟨a, b⟩ := p
    by_cases hp : a = k
    · simp [dictSet, hp, dictLookup]
    · simp [dictSet, hp, dictLookup, ih]

theorem dictLookup_dictSet_ne (d : JDict) (k k' : String) (v : JVal)
    (hne : k' ≠ k) : dictLookup (dictSet d k v) k' = dictLookup d k' := by
  induction d with
  | nil => simp [dictSet, dictLookup, Ne.symm hne]
  | cons p rest ih =>
    obtain ⟨a, b⟩ := p
    by_cases hak : a = k
    · subst hak
      simp [dictSet, dictLookup, Ne.symm hne]
    · by_cases hak' : a = k'
      · simp [dictSet, hak, dictLookup, hak', hne]
      · simp [dictSet, hak, dictLookup, hak', ih]

theorem dictKeys_dictSet_mem (d : JDict) (k : String) (v : JVal)
    (hmem : k ∈ dictKeys d) : dictKeys (dictSet d k v) = dictKeys d := by
  induction d with
  | nil => simp [dictKeys] at hmem
  | cons p rest ih =>
    obtain ⟨a, b⟩ := p
    by_cases hp : a = k
    · simp [dictSet, hp, dictKeys_cons]
    · rw [dictKeys_cons] at hmem
      rcases List.mem_cons.mp hmem with hc | hc
    -- the head cannot be the updated key in this branch
      · exact absurd hc.symm hp
      · simp [dictSet, hp, dictKeys_cons, ih hc]

theorem dictKeys_dictSet_not_mem (d : JDict) (k : String) (v : JVal)
    (hmem : k ∉ dictKeys d) : dictKeys (dictSet d k v) = dictKeys d ++ [k] := by
  induction d with
  | nil => simp [dictSet, dictKeys]
  | cons p rest ih =>
    obtain ⟨a, b⟩ := p
    rw [dictKeys_cons] at hmem
    have hp : a ≠ k := fun hc => hmem (hc ▸ List.mem_cons_self a (dictKeys rest))
    have hr : k ∉ dictKeys rest := fun hc => hmem (List.mem_cons_of_mem a hc)
    simp [dictSet, hp, dictKeys_cons, ih hr]

/-- Keys never disappear under a dict update. -/
theorem dictKeys_mem_dictSet (d : JDict) (k k' : String) (v : JVal)
    (hmem : k' ∈ dictKeys d) : k' ∈ dictKeys (dictSet d k v) := by
  by_cases hk : k ∈ dictKeys d
  · rw [dictKeys_dictSet_mem d k v hk]
    exact hmem
  · rw [dictKeys_dictSet_not_mem d k v hk]
    exact List.mem_append_left _ hmem

/-- Keys never disappear under a fold of dict updates. -/
theorem dictKeys_mem_foldl (extras : List (String × JVal)) (d : JDict)
    (k : String) (hmem : k ∈ dictKeys d) :
    k ∈ dictKeys (extras.foldl (fun o kv => dictSet o kv.1 kv.2) d) := by
  induction extras generalizing d with
  | nil => simpa using hmem
  | cons kv rest ih =>
    simp only [List.foldl_cons]
    exact ih _ (dictKeys_mem_dictSet d kv.1 k kv.2 hmem)

/-- A dict update cannot change which keys of a fixed selection list occur,
nor their order, as long as every selected key is already present. -/
theorem filter_dictKeys_dictSet (sel : List String) (d : JDict) (k : String)
    (v : JVal) (hsub : ∀ x ∈ sel, x ∈ dictKeys d) :
    (dictKeys (dictSet d k v)).filter (fun x => sel.contains x) =
      (dictKeys d).filter (fun x => sel.contains x) := by
  by_cases hk : k ∈ dictKeys d
  · rw [dictKeys_dictSet_mem d k v hk]
  · rw [dictKeys_dictSet_not_mem d k v hk]
    have hkn : k ∉ sel := fun hc => hk (hsub k hc)
    have hns : sel.contains k = false := by
      cases hc : sel.contains k
      · rfl
      · exact absurd ((contains_true_iff sel k).mp hc) hkn
    simp [List.filter_append, hns, hkn]

/-- Folding any extra-field assignments into a dict leaves the occurrence
pattern of an already-present key selection unchanged. -/
theorem filter_dictKeys_foldl (sel : List String)
    (extras : List (String × JVal)) (d : JDict)
    (hsub : ∀ x ∈ sel, x ∈ dictKeys d) :
    (dictKeys (extras.foldl (fun o kv => dictSet o kv.1 kv.2) d)).filter
        (fun x => sel.contains x) =
      (dictKeys d).filter (fun x => sel.contains x) := by
  induction extras generalizing d with
  | nil => rfl
  | cons kv rest ih =>
    simp only [List.foldl_cons]
    rw [ih (dictSet d kv.1 kv.2)
      (fun x hx => dictKeys_mem_dictSet d kv.1 x kv.2 (hsub x hx))]
    exact filter_dictKeys_dictSet sel d kv.1 kv.2 hsub

/-! ## Heap lemmas -/

theorem hget_set (h : Heap) (i j : Nat) (o : Obj) :
    hget (h.set i o) j = if i = j ∧ j < h.length then o else hget h j := by
  induction h generalizing i j with
  | nil => simp [hget, List.set]
  | cons a t ih =>
    cases i with
    | zero =>
      cases j with
      | zero => simp [hget]
      | succ j' => simp [hget]
    | succ i' =>
      cases j with
      | zero => simp [hget]
      | succ j' =>
        simp only [List.set, List.length_cons]
        have := ih i' j'
        simp only [hget, List.getElem?_cons_succ] at this ⊢
        rw [this]
        by_cases hij : i' = j'
        · subst hij
          by_cases hb : i' < t.length <;> simp [hb, Nat.succ_lt_succ_iff]
        · simp [hij, fun hc => hij (Nat.succ_injective hc)]

theorem set_oob (h : Heap) (i : Nat) (o : Obj) (hle : h.length ≤ i) :
    h.set i o = h := by
  induction h generalizing i with
  | nil => simp
  | cons a t ih =>
    cases i with
    | zero => simp at hle
    | succ i' =>
      simp only [List.set, List.cons.injEq, true_and]
      exact ih i' (by simpa [Nat.succ_le_succ_iff] using hle)

theorem hget_append_self (h : Heap) (o : Obj) : hget (h ++ [o]) h.length = o := by
  induction h with
  | nil => simp [hget]
  | cons a t ih =>
    simp only [List.cons_append, List.length_cons]
    rw [show hget (a :: (t ++ [o])) (t.length + 1) = hget (t ++ [o]) t.length from by
      simp [hget, List.getElem?_cons_succ]]
    exact ih

theorem hget_append_lt (h : Heap) (rest : Heap) (j : Nat) (hj : j < h.length) :
    hget (h ++ rest) j = hget h j := by
  simp [hget, List.getElem?_append, hj]

/-- Updating one object leaves every object's `path` (hence its `name`)
unchanged, provided the update function preserves the path field. -/
theorem objName_objUpdate (h : Heap) (i j : Nat) (f : Obj → Obj)
    (hf : ∀ o, (f o).path = o.path) :
    objName (objUpdate h i f) j = objName h j := by
  unfold objName objUpdate
  rw [hget_set]
  by_cases hc : i = j ∧ j < h.length
  · rcases hc with ⟨rfl, hb⟩
    simp [hb, hf]
  · simp [hc]

/-! ## The stable key sort is sorted -/

theorem charListLe_total (a b : List Char) :
    charListLe a b = true ∨ charListLe b a = true := by
  induction a generalizing b with
  | nil => left; rfl
  | cons x xs ih =>
    cases b with
    | nil => right; rfl
    | cons y ys =>
      by_cases hxy : x.toNat < y.toNat
      · left
        simp [charListLe, hxy]
      · by_cases hyx : y.toNat < x.toNat
        · right
          simp [charListLe, hyx]
        · rcases ih ys with hc | hc
          · left
            simp [charListLe, hxy, hyx, hc]
          · right
            simp [charListLe, hxy, hyx, hc]

theorem charListLe_trans (a b c : List Char)
    (hab : charListLe a b = true) (hbc : charListLe b c = true) :
    charListLe a c = true := by
  induction a generalizing b c with
  | nil => rfl
  | cons x xs ih =>
    cases b with
    | nil => simp [charListLe] at hab
    | cons y ys =>
      cases c with
      | nil => simp [charListLe] at hbc
      | cons z zs =>
        simp only [charListLe] at hab hbc ⊢
        by_cases hxy : x.toNat < y.toNat
        · by_cases hyz : y.toNat < z.toNat
          · simp [show x.toNat < z.toNat from by omega]
          · by_cases hzy : z.toNat < y.toNat
            · simp [hyz, hzy] at hbc
            · simp [show x.toNat < z.toNat from by omega]
        · by_cases hyx : y.toNat < x.toNat
          · simp [hxy, hyx] at hab
          · by_cases hyz : y.toNat < z.toNat
            · simp [show x.toNat < z.toNat from by omega]
            · by_cases hzy : z.toNat < y.toNat
              · simp [hyz, hzy] at hbc
              · have hxz : ¬ x.toNat < z.toNat := by omega
                have hzx : ¬ z.toNat < x.toNat := by omega
                simp [hxy, hyx] at hab
                simp [hyz, hzy] at hbc
                simp [hxz, hzx]
                exact ih ys zs hab hbc

theorem strLeb_total (a b : String) : strLeb a b = true ∨ strLeb b a = true :=
  charListLe_total a.toList b.toList

theorem strLeb_trans (a b c : String) (hab : strLeb a b = true)
    (hbc : strLeb b c = true) : strLeb a c = true :=
  charListLe_trans a.toList b.toList c.toList hab hbc

theorem strLeb_of_not (a b : String) (hn : ¬ strLeb a b = true) :
    strLeb b a = true := by
  rcases strLeb_total a b with hc | hc
  · exact absurd hc hn
  · exact hc

theorem mem_insertByKey (key : Nat → String) (x a : Nat) (l : List Nat) :
    a ∈ insertByKey key x l ↔ a = x ∨ a ∈ l := by
  induction l with
  | nil => simp [insertByKey]
  | cons y ys ih =>
    simp only [insertByKey]
    by_cases hle : strLeb (key x) (key y) = true
    · rw [if_pos hle]
      exact List.mem_cons
    · rw [if_neg hle]
      simp only [List.mem_cons, ih]
      tauto

theorem pairwise_insertByKey (key : Nat → String) (x : Nat) (l : List Nat)
    (hl : List.Pairwise (fun a b => strLeb (key a) (key b) = true) l) :
    List.Pairwise (fun a b => strLeb (key a) (key b) = true) (insertByKey key x l) := by
  induction l with
  | nil => simp [insertByKey]
  | cons y ys ih =>
    rcases List.pairwise_cons.mp hl with ⟨hy, hys⟩
    by_cases hle : strLeb (key x) (key y) = true
    · simp only [insertByKey]
      rw [if_pos hle]
      refine List.pairwise_cons.mpr ⟨?_, hl⟩
      intro z hz
      rcases List.mem_cons.mp hz with rfl | hz'
      · exact hle
      · exact strLeb_trans _ _ _ hle (hy z hz')
    · simp only [insertByKey]
      rw [if_neg hle]
      refine List.pairwise_cons.mpr ⟨?_, ih hys⟩
      intro z hz
      rcases (mem_insertByKey key x z ys).mp hz with rfl | hz'
      · exact strLeb_of_not _ _ hle
      · exact hy z hz'

theorem pairwise_sortByKey (key : Nat → String) (l : List Nat) :
    List.Pairwise (fun a b => strLeb (key a) (key b) = true) (sortByKey key l) := by
  induction l with
  | nil => exact List.Pairwise.nil
  | cons x xs ih => exact pairwise_insertByKey key x (xs.foldr (insertByKey key) []) ih

/-! ## Accessor idempotence helpers -/

/-- `FFM_File.stat` changes at most the `stat_result` field of the object
(and no other object), so every other attribute reads the same after it. -/
theorem objStat_preserves (env : Env) (i : Nat) (h : Heap) :
    (hget (objStat env i h).2 i).path = (hget h i).path
    ∧ (hget (objStat env i h).2 i).create_time = (hget h i).create_time
    ∧ (hget (objStat env i h).2 i).mod_time = (hget h i).mod_time
    ∧ (hget (objStat env i h).2 i).data = (hget h i).data
    ∧ (objStat env i h).2.length = h.length := by
  cases hs : (hget h i).stat_result with
  | some s => simp [objStat, hs]
  | none =>
    unfold objStat objUpdate
    rw [hs]
    simp only
    rw [hget_set]
    constructor
    · split <;> simp
    constructor
    · split <;> simp
    constructor
    · split <;> simp
    constructor
    · split <;> simp
    · simp

theorem hget_objUpdate_self (h : Heap) (i : Nat) (f : Obj → Obj)
    (hib : i < h.length) : hget (objUpdate h i f) i = f (hget h i) := by
  unfold objUpdate
  rw [hget_set]
  simp [hib]

theorem objGetData_idem (env : Env) (i : Nat) (h : Heap) (hib : i < h.length) :
    objGetData env i ((objGetData env i h).2) = objGetData env i h := by
  cases hd : (hget h i).data with
  | some d => simp [objGetData, hd]
  | none =>
    have hg : (hget (objUpdate h i
        (fun o => { o with data := some (env.read_file (hget h i).path) })) i).data
        = some (env.read_file (hget h i).path) := by
      unfold objUpdate
      rw [hget_set]
      simp [hib]
    simp [objGetData, hd, hg]

theorem objGetSize_idem (env : Env) (i : Nat) (h : Heap) (hib : i < h.length) :
    objGetSize env i ((objGetSize env i h).2) = objGetSize env i h := by
  have hd := objGetData_idem env i h hib
  simp only [objGetSize]
  rw [show ((objGetData env i h).1.length, (objGetData env i h).2).2
      = (objGetData env i h).2 from rfl]
  rw [hd]

theorem objGetHash_idem (env : Env) (k : String) (i : Nat) (h : Heap)
    (hib : i < h.length) :
    objGetHash env k i ((objGetHash env k i h).2) = objGetHash env k i h := by
  have hd := objGetData_idem env i h hib
  simp only [objGetHash]
  cases hf : (HASH_FUNCTIONS env).find? (fun kf => kf.1 = k) <;>
    simp only [hf] <;> rw [hd]

theorem objGetCreateTime_idem (env : Env) (i : Nat) (h : Heap)
    (hib : i < h.length) (hfmt : ∀ t : Int, env.fmtTime t ≠ "") :
    objGetCreateTime env i ((objGetCreateTime env i h).2) = objGetCreateTime env i h := by
  by_cases he : (hget h i).create_time = some ""
  · simp [objGetCreateTime, he]
  · cases hc : (hget h i).create_time with
    | some v =>
      have hv : v ≠ "" := fun hveq => he (by rw [hc, hveq])
      simp [objGetCreateTime, he, hc, hv]
    | none =>
      obtain ⟨hpath, hct, hmt, hdata, hlen⟩ := objStat_preserves env i h
      have hib' : i < (objStat env i h).2.length := by
        rw [hlen]
        exact hib
      have hv : env.fmtTime (objStat env i h).1.st_ctime ≠ "" := hfmt _
      have hfield : (hget (objGetCreateTime env i h).2 i).create_time
          = some (env.fmtTime (objStat env i h).1.st_ctime) := by
        simp [objGetCreateTime, he, hc, hget_objUpdate_self _ _ _ hib']
      have hval : (objGetCreateTime env i h).1
          = some (env.fmtTime (objStat env i h).1.st_ctime) := by
        simp [objGetCreateTime, he, hc]
      have hsecond : ∀ h2 : Heap,
          (hget h2 i).create_time = some (env.fmtTime (objStat env i h).1.st_ctime) →
          objGetCreateTime env i h2
            = (some (env.fmtTime (objStat env i h).1.st_ctime), h2) := by
        intro h2 hh2
        simp [objGetCreateTime, hh2, hv]
      rw [hsecond _ hfield, ← hval]

theorem objGetModTime_idem (env : Env) (i : Nat) (h : Heap)
    (hib : i < h.length) (hfmt : ∀ t : Int, env.fmtTime t ≠ "") :
    objGetModTime env i ((objGetModTime env i h).2) = objGetModTime env i h := by
  by_cases he : (hget h i).mod_time = some ""
  · simp [objGetModTime, he]
  · cases hc : (hget h i).mod_time with
    | some v =>
      have hv : v ≠ "" := fun hveq => he (by rw [hc, hveq])
      simp [objGetModTime, he, hc, hv]
    | none =>
      obtain ⟨hpath, hct, hmt, hdata, hlen⟩ := objStat_preserves env i h
      have hib' : i < (objStat env i h).2.length := by
        rw [hlen]
        exact hib
      have hv : env.fmtTime (objStat env i h).1.st_mtime ≠ "" := hfmt _
      have hfield : (hget (objGetModTime env i h).2 i).mod_time
          = some (env.fmtTime (objStat env i h).1.st_mtime) := by
        simp [objGetModTime, he, hc, hget_objUpdate_self _ _ _ hib']
      have hval : (objGetModTime env i h).1
          = some (env.fmtTime (objStat env i h).1.st_mtime) := by
        simp [objGetModTime, he, hc]
      have hsecond : ∀ h2 : Heap,
          (hget h2 i).mod_time = some (env.fmtTime (objStat env i h).1.st_mtime) →
          objGetModTime env i h2
            = (some (env.fmtTime (objStat env i h).1.st_mtime), h2) := by
        intro h2 hh2
        simp [objGetModTime, hh2, hv]
      rw [hsecond _ hfield, ← hval]

/-! ## Shared concrete environment for witnesses -/

/-- A minimal concrete environment: no directories, empty filesystem reads,
constant digests and time rendering, failing decompressors and readers. -/
def baseEnv : Env :=
  { is_dir := fun _ => false,
    glob := fun _ => [],
    read_file := fun _ => [],
    stat := fun _ => ⟨0, 0⟩,
    fmtTime := fun _ => "2020-01-02 03:04:05",
    gzip_d := fun _ => none,
    xz_d := fun _ => none,
    open_fs := fun _ _ => none,
    crc32hex := fun _ => "c",
    md5hex := fun _ => "m",
    sha1hex := fun _ => "s1",
    sha256hex := fun _ => "s2" }

/-! ## Claim theorems -/

/-- C6: for every non-directory path, automatic dispatch derives the format
hint by `clean_ext` (strip dots, strip whitespace, uppercase) of the file's
suffix; when that hint is a known compression wrapper (`GZ`/`XZ`) the hint is
re-derived from the second-to-last suffix segment (`.tar.gz` gives `TAR`),
and `decompress` later applies the matching decompressor to a wrapper-suffixed
path. -/
theorem c6_hint_derivation :
    (∀ p, clean_ext (pySuffix p) ∉ COMPRESSED_EXTENSIONS →
      derive_hint p = .ok (clean_ext (pySuffix p)))
    ∧ (∀ p, clean_ext (pySuffix p) ∈ COMPRESSED_EXTENSIONS →
        2 ≤ (pySuffixes p).length →
        derive_hint p =
          .ok (clean_ext ((pySuffixes p).getD ((pySuffixes p).length - 2) "")))
    ∧ derive_hint "x.tar.gz" = .ok "TAR"
    ∧ clean_ext ".zip" = "ZIP"
    ∧ (∀ env d dd path, clean_ext (pySuffix path) = "GZ" →
        env.gzip_d d = some dd → decompress env path d = .ok dd)
    ∧ (∀ env d dd path, clean_ext (pySuffix path) = "XZ" →
        env.xz_d d = some dd → decompress env path d = .ok dd) := by
  refine ⟨?_, ?_, rfl, rfl, ?_, ?_⟩
  · intro p hp
    simp [derive_hint, hp]
  · intro p hp hlen
    simp [derive_hint, hp, idxNeg2, hlen]
  · intro env d dd path hgz hdd
    simp [decompress, hgz, hdd]
  · intro env d dd path hxz hdd
    have : clean_ext (pySuffix path) ≠ "GZ" := by
      rw [hxz]
      decide
    simp [decompress, hxz, hdd, this]

/-- Witness for C6 at concrete inputs: a plain `.iso` suffix passes through
unchanged, and a `.gz`-suffixed path is decompressed with the gzip library. -/
theorem c6_witness :
    derive_hint "name.iso" = .ok (clean_ext (pySuffix "name.iso"))
    ∧ decompress { baseEnv with gzip_d := fun _ => some [9] } "x.tar.gz" [1]
      = .ok [9] :=
  ⟨c6_hint_derivation.1 "name.iso" (by decide),
   c6_hint_derivation.2.2.2.2.1 { baseEnv with gzip_d := fun _ => some [9] }
     [1] [9] "x.tar.gz" (by decide) rfl⟩

/-- C8: every metadata accessor of a file entity (payload, size, each hash,
creation and modification time) is memoized and idempotent: calling it a
second time returns the same value and leaves every stored field unchanged;
moreover each hash value is a pure function of the payload bytes.  The time
accessors need the external timestamp renderer never to produce the empty
string, which the fixed `"%Y-%m-%d %H:%M:%S"` format guarantees. -/
theorem c8_accessors_idempotent (env : Env) (i : Nat) (h : Heap)
    (hib : i < h.length) (hfmt : ∀ t : Int, env.fmtTime t ≠ "") :
    objGetData env i ((objGetData env i h).2) = objGetData env i h
    ∧ objGetSize env i ((objGetSize env i h).2) = objGetSize env i h
    ∧ (∀ k, objGetHash env k i ((objGetHash env k i h).2) = objGetHash env k i h)
    ∧ objGetCreateTime env i ((objGetCreateTime env i h).2) = objGetCreateTime env i h
    ∧ objGetModTime env i ((objGetModTime env i h).2) = objGetModTime env i h
    ∧ (∀ k (j : Nat) (h' : Heap),
        (objGetData env i h).1 = (objGetData env j h').1 →
        (objGetHash env k i h).1 = (objGetHash env k j h').1) := by
  refine ⟨objGetData_idem env i h hib, objGetSize_idem env i h hib,
    fun k => objGetHash_idem env k i h hib,
    objGetCreateTime_idem env i h hib hfmt,
    objGetModTime_idem env i h hib hfmt, ?_⟩
  intro k j h' hd
  simp only [objGetHash]
  cases hf : (HASH_FUNCTIONS env).find? (fun kf => kf.1 = k) <;>
    simp [hf, hd]

/-- Witness for C8: the idempotence instance on a one-object heap. -/
theorem c8_witness :
    objGetData baseEnv 0 ((objGetData baseEnv 0 [mkFileObj "f" (some [1, 2])]).2)
      = objGetData baseEnv 0 [mkFileObj "f" (some [1, 2])]
    ∧ objGetSize baseEnv 0 ((objGetSize baseEnv 0 [mkFileObj "f" (some [1, 2])]).2)
      = objGetSize baseEnv 0 [mkFileObj "f" (some [1, 2])]
    ∧ (∀ k, objGetHash baseEnv k 0
        ((objGetHash baseEnv k 0 [mkFileObj "f" (some [1, 2])]).2)
      = objGetHash baseEnv k 0 [mkFileObj "f" (some [1, 2])])
    ∧ objGetCreateTime baseEnv 0
        ((objGetCreateTime baseEnv 0 [mkFileObj "f" (some [1, 2])]).2)
      = objGetCreateTime baseEnv 0 [mkFileObj "f" (some [1, 2])]
    ∧ objGetModTime baseEnv 0
        ((objGetModTime baseEnv 0 [mkFileObj "f" (some [1, 2])]).2)
      = objGetModTime baseEnv 0 [mkFileObj "f" (some [1, 2])]
    ∧ (∀ k (j : Nat) (h' : Heap),
        (objGetData baseEnv 0 [mkFileObj "f" (some [1, 2])]).1
          = (objGetData baseEnv j h').1 →
        (objGetHash baseEnv k 0 [mkFileObj "f" (some [1, 2])]).1
          = (objGetHash baseEnv k j h').1) :=
  c8_accessors_idempotent baseEnv 0 [mkFileObj "f" (some [1, 2])]
    (by decide)
    (fun t => by
      show ¬("2020-01-02 03:04:05" : String) = ""
      decide)

/-- C9: an existing non-directory path whose name has exactly one suffix
segment, that segment being a recognized compression wrapper, makes `get_obj`
raise an `IndexError` (from `path.suffixes[-2]`, evaluated outside the
protected trial block) instead of returning any entity. -/
theorem c9_single_wrapper_suffix_raises :
    (∀ p s, pySuffixes p = [s] →
      clean_ext (pySuffix p) ∈ COMPRESSED_EXTENSIONS →
      ∀ (env : Env) (prev : Funcs) (data : Option (List Nat)) (h : Heap),
        env.is_dir p = false →
        mkGetObj env prev p data h = .error .indexError)
    ∧ derive_hint "data.gz" = .error .indexError := by
  refine ⟨?_, rfl⟩
  intro p s hps hc env prev data h hd
  have hdh : derive_hint p = .error .indexError := by
    simp [derive_hint, hc, hps, idxNeg2]
  simp [mkGetObj, hd, hdh]

/-- Witness for C9: `data.gz` in the base environment. -/
theorem c9_witness :
    mkGetObj baseEnv bottomFuncs "data.gz" none [] = .error .indexError :=
  c9_single_wrapper_suffix_raises.1 "data.gz" ".gz" (by decide) (by decide)
    baseEnv bottomFuncs none [] rfl

/-! ## C1: ordering of directory children -/

/-- Environment for the C1 container run: the root `c.zip` parses as a ZIP
whose reader emits a directory `d` followed by the members `d/b` and `d/a`,
in that (unsorted) order. -/
def envC1 : Env :=
  { baseEnv with
    open_fs := (fun f _ =>
      if f = "ZIP" then
        some ⟨[⟨"d", none, none⟩, ⟨"d/b", none, some [1]⟩,
               ⟨"d/a", none, some [2]⟩], []⟩
      else none) }

/-- Heap produced by automatic dispatch of the root `c.zip` under `envC1`:
object 0 is the container, object 1 the directory record `d`, objects 2 and 3
the files `d/b` and `d/a`. -/
def heapC1 : Heap :=
  match (ffmFuncs envC1 3).get_obj "c.zip" none [] with
  | .ok (_, h) => h
  | .error _ => []

/-- Whether the dispatch of the root succeeded under `envC1`. -/
def okC1 : Bool :=
  match (ffmFuncs envC1 3).get_obj "c.zip" none [] with
  | .ok _ => true
  | .error _ => false

/-- C1 is false as stated: in the successful `envC1` run, the
`DirectoryEntity` created for the container record `d` holds its children in
reader emission order, names `["b", "a"]`, which is not sorted
lexicographically. -/
theorem c1_counterexample :
    okC1 = true
    ∧ (hget heapC1 1).kind = .dir
    ∧ (hget heapC1 1).children = some [2, 3]
    ∧ objName heapC1 2 = "b"
    ∧ objName heapC1 3 = "a"
    ∧ strLeb (objName heapC1 2) (objName heapC1 3) = false := by
  exact ⟨by decide, by decide, by decide, by decide, by decide, by decide⟩

/-- C1 (amended): an on-disk `DirectoryEntity` whose children have not yet
been initialized always realizes them sorted lexicographically by name; a
directory record assembled inside a container instead keeps its children in
the reader's emission order without sorting, as the `envC1` run shows. -/
theorem c1_children_sorted_amended :
    (∀ (env : Env) (prev : Funcs) (i : Nat) (h : Heap) (ids : List Nat)
      (h' : Heap),
      (hget h i).children = none →
      mkDirIter env prev i h = .ok (ids, h') →
      List.Pairwise (fun a b => strLeb (objName h' a) (objName h' b) = true) ids)
    ∧ (hget heapC1 1).children = some [2, 3]
    ∧ objName heapC1 2 = "b"
    ∧ objName heapC1 3 = "a" := by
  refine ⟨?_, by decide, by decide, by decide⟩
  intro env prev i h ids h' hnone hok
  simp only [mkDirIter, hnone] at hok
  cases hmap : mapGetObj prev.get_obj (env.glob (hget h i).path) h with
  | error e =>
    rw [hmap] at hok
    cases hok
  | ok r =>
    obtain ⟨ids0, h1⟩ := r
    rw [hmap] at hok
    simp only [Except.ok.injEq, Prod.mk.injEq] at hok
    obtain ⟨hids, hh⟩ := hok
    subst hids
    subst hh
    have hnm : ∀ j, objName (objUpdate h1 i (fun o =>
        { o with children := some (sortByKey (fun j => objName h1 j) ids0) })) j
        = objName h1 j :=
      fun j => objName_objUpdate h1 i j _ (fun o => rfl)
    have hp := pairwise_sortByKey (fun j => objName h1 j) ids0
    exact hp.imp (fun hab => by
      rw [hnm, hnm]
      exact hab)

/-- Environment for the C1 witness: a directory `r` with two on-disk entries
listed in unsorted order. -/
def envW1 : Env := { baseEnv with glob := fun _ => ["r/bb", "r/aa"] }

/-- Children ids of the realized directory in the witness run. -/
def w1ids : List Nat :=
  match mkDirIter envW1 (ffmFuncs envW1 1) 0 [mkDirObj "r"] with
  | .ok (ids, _) => ids
  | .error _ => []

/-- Heap of the witness run. -/
def w1heap : Heap :=
  match mkDirIter envW1 (ffmFuncs envW1 1) 0 [mkDirObj "r"] with
  | .ok (_, h') => h'
  | .error _ => []

/-- Witness for C1 on the concrete directory run of `envW1`. -/
theorem c1_witness :
    List.Pairwise (fun a b => strLeb (objName w1heap a) (objName w1heap b) = true) w1ids :=
  c1_children_sorted_amended.1 envW1 (ffmFuncs envW1 1) 0 [mkDirObj "r"]
    w1ids w1heap (by decide) (by rfl)

/-! ## C5: member timestamps and their serialization -/

/-- C5: processing a container member record with a present payload leaves a
node whose `create_time` is the intentionally-blank sentinel and whose
`mod_time` is the record's rendered timestamp, or the sentinel when the
reader supplied none; `to_dict` omits the `create_time` key always for such a
node and omits `mod_time` exactly when the sentinel is stored, never writing
a null or empty value. -/
theorem c5_member_timestamps (env : Env)
    (g : String → Option (List Nat) → Heap → Except PyErr (Nat × Heap))
    (p : String) (mt : Option String) (d : List Nat)
    (pmap : List (String × Nat)) (acc : List Nat) (h : Heap)
    (i : Nat) (h1 : Heap)
    (hg : g p (some d) h = .ok (i, h1))
    (hs : hasSlash p = false)
    (hib : i < h1.length) :
    nfsLoop env g [⟨p, mt, some d⟩] pmap acc h
      = .ok (acc ++ [i], objUpdate h1 i (memberInit mt d))
    ∧ (hget (objUpdate h1 i (memberInit mt d)) i).create_time = some ""
    ∧ (hget (objUpdate h1 i (memberInit mt d)) i).mod_time
        = some (match mt with | none => "" | some t => t)
    ∧ "create_time" ∉
        dictKeys (ffm_file_to_dict env i (objUpdate h1 i (memberInit mt d))).1
    ∧ (mt = none → "mod_time" ∉
        dictKeys (ffm_file_to_dict env i (objUpdate h1 i (memberInit mt d))).1)
    ∧ (∀ t, mt = some t → t ≠ "" →
        dictLookup (ffm_file_to_dict env i (objUpdate h1 i (memberInit mt d))).1
          "mod_time" = some (JVal.s t)) := by
  have hobj := hget_objUpdate_self h1 i (memberInit mt d) hib
  refine ⟨?_, ?_, ?_, ?_, ?_, ?_⟩
  · simp [nfsLoop, hg, hs]
  · rw [hobj]
    rfl
  · rw [hobj]
    rfl
  · cases mt with
    | none =>
      simp [ffm_file_to_dict, objGetData, objGetCreateTime, objGetModTime,
        hobj, memberInit, dictMerge, dictSet, dictKeys, HASH_FUNCTIONS,
        ffm_entity_to_dict]
    | some t =>
      by_cases ht : t = ""
      · subst ht
        simp [ffm_file_to_dict, objGetData, objGetCreateTime, objGetModTime,
          hobj, memberInit, dictMerge, dictSet, dictKeys, HASH_FUNCTIONS,
          ffm_entity_to_dict]
      · simp [ffm_file_to_dict, objGetData, objGetCreateTime, objGetModTime,
          hobj, memberInit, dictMerge, dictSet, dictKeys, HASH_FUNCTIONS,
          ffm_entity_to_dict, ht]
  · intro hmt
    subst hmt
    simp [ffm_file_to_dict, objGetData, objGetCreateTime, objGetModTime, hobj,
      memberInit, dictMerge, dictSet, dictKeys, HASH_FUNCTIONS,
      ffm_entity_to_dict]
  · intro t hmt hne
    subst hmt
    simp [ffm_file_to_dict, objGetData, objGetCreateTime, objGetModTime, hobj,
      memberInit, dictMerge, dictSet, dictKeys, HASH_FUNCTIONS,
      ffm_entity_to_dict, dictLookup, hne]

/-- Environment and call data for the C5 witness: the member `m.txt` with
payload `[3]` and no reader timestamp, processed by a `get_obj` that sees a
plain file. -/
def envW5 : Env := baseEnv

/-- Witness for C5: instantiate the member-record theorem on a concrete run
where `get_obj` allocates object 0 on the empty heap. -/
theorem c5_witness :
    nfsLoop envW5 (mkGetObj envW5 bottomFuncs) [⟨"m.txt", none, some [3]⟩] [] [] []
      = .ok ([0], objUpdate [mkFileObj "m.txt" (some [3])] 0 (memberInit none [3]))
    ∧ (hget (objUpdate [mkFileObj "m.txt" (some [3])] 0 (memberInit none [3])) 0).create_time
        = some ""
    ∧ (hget (objUpdate [mkFileObj "m.txt" (some [3])] 0 (memberInit none [3])) 0).mod_time
        = some (match (none : Option String) with | none => "" | some t => t)
    ∧ "create_time" ∉
        dictKeys (ffm_file_to_dict envW5 0
          (objUpdate [mkFileObj "m.txt" (some [3])] 0 (memberInit none [3]))).1
    ∧ ((none : Option String) = none → "mod_time" ∉
        dictKeys (ffm_file_to_dict envW5 0
          (objUpdate [mkFileObj "m.txt" (some [3])] 0 (memberInit none [3]))).1)
    ∧ (∀ t, (none : Option String) = some t → t ≠ "" →
        dictLookup (ffm_file_to_dict envW5 0
          (objUpdate [mkFileObj "m.txt" (some [3])] 0 (memberInit none [3]))).1
          "mod_time" = some (JVal.s t)) :=
  c5_member_timestamps envW5 (mkGetObj envW5 bottomFuncs) "m.txt" none [3]
    [] [] [] 0 [mkFileObj "m.txt" (some [3])] (by rfl) (by decide) (by decide)

/-! ## Dispatcher plumbing lemmas -/

theorem fresh_nfs_children (h : Heap) (fmt path : String)
    (data : Option (List Nat)) :
    (hget (h ++ [mkNfsObj fmt path data]) h.length).children = none := by
  rw [hget_append_self]
  rfl

theorem fresh_nfs_fs (h : Heap) (fmt path : String) (data : Option (List Nat)) :
    (hget (h ++ [mkNfsObj fmt path data]) h.length).fs = none := by
  rw [hget_append_self]
  rfl

theorem fresh_nfs_kind (h : Heap) (fmt path : String) (data : Option (List Nat)) :
    (hget (h ++ [mkNfsObj fmt path data]) h.length).kind = .nfs fmt := by
  rw [hget_append_self]
  rfl

theorem fresh_nfs_data (h : Heap) (fmt path : String) (data : Option (List Nat)) :
    (hget (h ++ [mkNfsObj fmt path data]) h.length).data = data := by
  rw [hget_append_self]
  rfl

theorem fresh_nfs_path (h : Heap) (fmt path : String) (data : Option (List Nat)) :
    (hget (h ++ [mkNfsObj fmt path data]) h.length).path = path := by
  rw [hget_append_self]
  rfl

theorem tag_mem (ext fmt : String) (htag : FORMAT_TO_TAG ext = some fmt) :
    INPUT_FORMAT_KEYS.contains ext = true := by
  unfold FORMAT_TO_TAG at htag
  split_ifs at htag with h1 h2 h3 h4 h5 h6 h7
  · subst h1; decide
  · subst h2; decide
  · subst h3; decide
  · subst h4; decide
  · subst h5; decide
  · subst h6; decide
  · subst h7; decide

theorem tag_ne_dir (ext fmt : String) (htag : FORMAT_TO_TAG ext = some fmt) :
    ext ≠ "DIR" := by
  intro hc
  subst hc
  simp [FORMAT_TO_TAG] at htag

theorem tag_ne_file (ext fmt : String) (htag : FORMAT_TO_TAG ext = some fmt) :
    ext ≠ "FILE" := by
  intro hc
  subst hc
  simp [FORMAT_TO_TAG] at htag

theorem tag_ne_auto (ext fmt : String) (htag : FORMAT_TO_TAG ext = some fmt) :
    ext ≠ "AUTO" := by
  intro hc
  subst hc
  simp [FORMAT_TO_TAG] at htag

/-- For an extension mapped to a container class, the trial construction is
exactly: allocate the container object and materialize it with `list`. -/
theorem trial_container (env : Env) (prev : Funcs) (ext path : String)
    (data : Option (List Nat)) (h : Heap) (fmt : String)
    (htag : FORMAT_TO_TAG ext = some fmt) :
    trialConstruct env prev ext path data h =
      match mkNfsIter env prev h.length (h ++ [mkNfsObj fmt path data]) with
      | .error e => .error e
      | .ok (_, h2) => .ok (h.length, h2) := by
  simp [trialConstruct, tag_ne_dir ext fmt htag, tag_ne_file ext fmt htag,
    tag_ne_auto ext fmt htag, htag]

/-- The silent fallback of `get_obj`: when the hint names a container class
and the trial raises anything, the result is a fresh plain `FFM_File`. -/
theorem getObj_trial_error (env : Env) (prev : Funcs) (path : String)
    (data : Option (List Nat)) (h : Heap) (ext fmt : String)
    (hdir : env.is_dir path = false)
    (hhint : derive_hint path = .ok ext)
    (htag : FORMAT_TO_TAG ext = some fmt)
    (htrial : ∃ e, trialConstruct env prev ext path data h = .error e) :
    mkGetObj env prev path data h = .ok (h.length, h ++ [mkFileObj path data]) := by
  obtain ⟨e, he⟩ := htrial
  simp [mkGetObj, hdir, hhint, tag_mem ext fmt htag, he]

/-- A path whose suffix is not a recognized wrapper passes `decompress`
through unchanged. -/
theorem decompress_id (env : Env) (path : String) (d : List Nat)
    (hng : clean_ext (pySuffix path) ≠ "GZ")
    (hnx : clean_ext (pySuffix path) ≠ "XZ") :
    decompress env path d = .ok d := by
  simp [decompress, hng, hnx]

/-- `FFM_NiemaFS.__iter__` on an unrealized container whose reader
constructor raises propagates a raise (a decompression failure or the bad
container data). -/
theorem mkNfsIter_openfail (env : Env) (prev : Funcs) (fmt path : String)
    (i : Nat) (H : Heap)
    (hchild : (hget H i).children = none)
    (hfs : (hget H i).fs = none)
    (hkind : (hget H i).kind = .nfs fmt)
    (hpath : (hget H i).path = path)
    (hib : i < H.length)
    (hfail : ∀ b, env.open_fs fmt b = none) :
    ∃ e, mkNfsIter env prev i H = .error e := by
  have hup : ∀ g : Obj → Obj, hget (objUpdate H i g) i = g (hget H i) :=
    fun g => hget_objUpdate_self H i g hib
  cases hd : (hget H i).data with
  | some d0 =>
    cases hdec : decompress env path d0 with
    | error e =>
      exact ⟨e, by simp [mkNfsIter, objGetData, hchild, hfs, hkind, hpath, hd, hdec]⟩
    | ok dd =>
      exact ⟨.readerError,
        by simp [mkNfsIter, objGetData, hchild, hfs, hkind, hpath, hd, hdec, hfail]⟩
  | none =>
    cases hdec : decompress env path (env.read_file path) with
    | error e =>
      exact ⟨e,
        by simp [mkNfsIter, objGetData, hchild, hfs, hkind, hpath, hd, hup, hdec]⟩
    | ok dd =>
      exact ⟨.readerError,
        by simp [mkNfsIter, objGetData, hchild, hfs, hkind, hpath, hd, hup, hdec, hfail]⟩

/-- C2 helper: the assembly loop raises `KeyError` the moment it meets a
member record whose path has a separator but whose parent was never
registered (shown for a directory record, which is created without
re-entering the dispatcher). -/
theorem nfsLoop_orphan (env : Env)
    (g : String → Option (List Nat) → Heap → Except PyErr (Nat × Heap))
    (p : String) (mt : Option String) (rest : List FSRec)
    (pmap : List (String × Nat)) (acc : List Nat) (h : Heap)
    (hs : hasSlash p = true)
    (hp : pmap.lookup (pathParent p) = none) :
    nfsLoop env g (⟨p, mt, none⟩ :: rest) pmap acc h = .error .keyError := by
  simp [nfsLoop, hs, hp]

/-- `FFM_NiemaFS.__iter__` on an unrealized container whose reader opens but
emits an orphan first record raises `KeyError`. -/
theorem mkNfsIter_orphan (env : Env) (prev : Funcs) (fmt path : String)
    (i : Nat) (H : Heap) (rdr : Reader) (p : String) (mt : Option String)
    (rest : List FSRec)
    (hchild : (hget H i).children = none)
    (hfs : (hget H i).fs = none)
    (hkind : (hget H i).kind = .nfs fmt)
    (hpath : (hget H i).path = path)
    (hib : i < H.length)
    (hng : clean_ext (pySuffix path) ≠ "GZ")
    (hnx : clean_ext (pySuffix path) ≠ "XZ")
    (hopen : ∀ b, env.open_fs fmt b = some rdr)
    (hrec : rdr.records = ⟨p, mt, none⟩ :: rest)
    (hsl : hasSlash p = true) :
    mkNfsIter env prev i H = .error .keyError := by
  have hup : ∀ g : Obj → Obj, hget (objUpdate H i g) i = g (hget H i) :=
    fun g => hget_objUpdate_self H i g hib
  have horph : ∀ h2 : Heap, nfsLoop env prev.get_obj rdr.records [] [] h2
      = .error .keyError := by
    intro h2
    rw [hrec]
    exact nfsLoop_orphan env prev.get_obj p mt rest [] [] h2 hsl rfl
  cases hd : (hget H i).data with
  | some d0 =>
    simp [mkNfsIter, objGetData, hchild, hfs, hkind, hpath, hd,
      decompress_id env path d0 hng hnx, hopen, horph]
  | none =>
    simp [mkNfsIter, objGetData, hchild, hfs, hkind, hpath, hd, hup,
      decompress_id env path (env.read_file path) hng hnx, hopen, horph]

/-! ## C2: orphan parent records are recovered under automatic dispatch -/

/-- Environment for the C2 counterexample: the root `c.zip` parses as a ZIP
whose reader's first and only record is `x/y`, whose parent `x` was never
emitted. -/
def envC2 : Env :=
  { baseEnv with
    open_fs := (fun f _ =>
      if f = "ZIP" then some ⟨[⟨"x/y", none, none⟩], []⟩ else none) }

/-- C2 is false as stated: under automatic dispatch of `c.zip` in `envC2`,
the reader emits an orphan member record, yet processing of that root is not
aborted — `get_obj` returns a plain file entity for it. -/
theorem c2_counterexample :
    (envC2.open_fs "ZIP" []).map Reader.records = some [⟨"x/y", none, none⟩]
    ∧ hasSlash "x/y" = true
    ∧ (ffmFuncs envC2 3).get_obj "c.zip" none []
        = .ok (0, [mkFileObj "c.zip" none]) := by
  exact ⟨rfl, by decide, rfl⟩

/-- C2 (amended): the assembly loop itself treats an orphan parent as a fatal
`KeyError` aborting that container's assembly, but under automatic dispatch
the blanket handler of `get_obj` catches it and degrades the whole container
to a plain `FFM_File` instead of aborting processing of that root. -/
theorem c2_orphan_amended :
    (∀ (env : Env)
      (g : String → Option (List Nat) → Heap → Except PyErr (Nat × Heap))
      (p : String) (mt : Option String) (rest : List FSRec)
      (pmap : List (String × Nat)) (acc : List Nat) (h : Heap),
      hasSlash p = true →
      pmap.lookup (pathParent p) = none →
      nfsLoop env g (⟨p, mt, none⟩ :: rest) pmap acc h = .error .keyError)
    ∧ (∀ (env : Env) (prev : Funcs) (data : Option (List Nat)) (h : Heap)
        (rdr : Reader) (p : String) (mt : Option String) (rest : List FSRec),
        env.is_dir "c.zip" = false →
        (∀ b, env.open_fs "ZIP" b = some rdr) →
        rdr.records = ⟨p, mt, none⟩ :: rest →
        hasSlash p = true →
        mkGetObj env prev "c.zip" data h
          = .ok (h.length, h ++ [mkFileObj "c.zip" data])) := by
  constructor
  · intro env g p mt rest pmap acc h hs hp
    exact nfsLoop_orphan env g p mt rest pmap acc h hs hp
  · intro env prev data h rdr p mt rest hdir hopen hrec hsl
    refine getObj_trial_error env prev "c.zip" data h "ZIP" "ZIP" hdir
      (by rfl) (by decide) ?_
    refine ⟨.keyError, ?_⟩
    rw [trial_container env prev "ZIP" "c.zip" data h "ZIP" (by decide)]
    rw [mkNfsIter_orphan env prev "ZIP" "c.zip" h.length
      (h ++ [mkNfsObj "ZIP" "c.zip" data]) rdr p mt rest
      (fresh_nfs_children h "ZIP" "c.zip" data)
      (fresh_nfs_fs h "ZIP" "c.zip" data)
      (fresh_nfs_kind h "ZIP" "c.zip" data)
      (fresh_nfs_path h "ZIP" "c.zip" data)
      (by simp) (by decide) (by decide) hopen hrec hsl]

/-- Witness for C2 on the concrete `envC2` run. -/
theorem c2_witness :
    nfsLoop envC2 bottomFuncs.get_obj [⟨"x/y", none, none⟩] [] [] []
      = .error .keyError
    ∧ mkGetObj envC2 bottomFuncs "c.zip" none []
      = .ok (0, [mkFileObj "c.zip" none]) :=
  ⟨c2_orphan_amended.1 envC2 bottomFuncs.get_obj "x/y" none [] [] [] []
      (by decide) rfl,
   c2_orphan_amended.2 envC2 bottomFuncs none [] ⟨[⟨"x/y", none, none⟩], []⟩
      "x/y" none [] rfl (fun b => rfl) rfl (by decide)⟩

/-! ## C3: unparsable container content falls back to a plain file -/

/-- C3: a non-directory path whose (possibly wrapper-stripped) extension hint
maps to a known container class, but whose content every reader constructor
for that format rejects, dispatches to a plain `FFM_File` carrying the given
payload, with no error propagated (stated for paths whose own suffix is not a
compression wrapper, so the failure is the reader's). -/
theorem c3_container_fallback (env : Env) (prev : Funcs) (path : String)
    (data : Option (List Nat)) (h : Heap) (ext fmt : String)
    (hdir : env.is_dir path = false)
    (hhint : derive_hint path = .ok ext)
    (htag : FORMAT_TO_TAG ext = some fmt)
    (hfail : ∀ b, env.open_fs fmt b = none) :
    mkGetObj env prev path data h = .ok (h.length, h ++ [mkFileObj path data]) := by
  refine getObj_trial_error env prev path data h ext fmt hdir hhint htag ?_
  obtain ⟨e, he⟩ := mkNfsIter_openfail env prev fmt path h.length
    (h ++ [mkNfsObj fmt path data])
    (fresh_nfs_children h fmt path data)
    (fresh_nfs_fs h fmt path data)
    (fresh_nfs_kind h fmt path data)
    (fresh_nfs_path h fmt path data)
    (by simp) hfail
  refine ⟨e, ?_⟩
  rw [trial_container env prev ext path data h fmt htag, he]

/-- Witness for C3: `archive.zip` in the base environment (whose ZIP reader
rejects everything) resolves to a plain file entity with the given bytes. -/
theorem c3_witness :
    mkGetObj baseEnv bottomFuncs "archive.zip" (some [1, 2, 3]) []
      = .ok (0, [mkFileObj "archive.zip" (some [1, 2, 3])]) :=
  c3_container_fallback baseEnv bottomFuncs "archive.zip" (some [1, 2, 3]) []
    "ZIP" "ZIP" rfl (by rfl) (by decide) (fun b => rfl)

/-! ## Serialized-dictionary characterization -/

/-- The unconditional part of the `FFM_File` dictionary: name, format, size,
and the four hashes in sorted key order, all computed from the payload `d`. -/
def fileDictCore (env : Env) (nm : String) (d : List Nat) : JDict :=
  [("name", JVal.s nm), ("format", JVal.s "FILE"), ("size", JVal.n d.length),
   ("crc32", JVal.s ("0x" ++ env.crc32hex d)),
   ("md5", JVal.s ("0x" ++ env.md5hex d)),
   ("sha1", JVal.s ("0x" ++ env.sha1hex d)),
   ("sha256", JVal.s ("0x" ++ env.sha256hex d))]

/-- A timestamp entry that is present only when its accessor resolved. -/
def optKey (k : String) (v : Option String) : JDict :=
  match v with
  | some s => [(k, JVal.s s)]
  | none => []

/-- The four hash key names, in the order `sorted(HASH_FUNCTIONS.keys())`
iterates them. -/
def hashKeyList : List String := ["crc32", "md5", "sha1", "sha256"]

theorem dictLookup_append_of_mem (d1 d2 : JDict) (k : String) (v : JVal)
    (hfound : dictLookup d1 k = some v) : dictLookup (d1 ++ d2) k = some v := by
  induction d1 with
  | nil => simp [dictLookup] at hfound
  | cons p rest ih =>
    obtain ⟨a, b⟩ := p
    by_cases hak : a = k
    · simp [dictLookup, hak] at hfound ⊢
      exact hfound
    · simp [dictLookup, hak] at hfound ⊢
      exact ih hfound

/-- `FFM_File.to_dict` in closed form: the core entries over the realized
payload, then the optional timestamp entries, with the heap in its
post-accessor state. -/
theorem ffm_file_to_dict_eq (env : Env) (i : Nat) (h : Heap)
    (hib : i < h.length) :
    ffm_file_to_dict env i h =
      (fileDictCore env (pathName (hget (objGetData env i h).2 i).path)
          (objGetData env i h).1
        ++ optKey "create_time" (objGetCreateTime env i (objGetData env i h).2).1
        ++ optKey "mod_time"
            (objGetModTime env i
              (objGetCreateTime env i (objGetData env i h).2).2).1,
       (objGetModTime env i (objGetCreateTime env i (objGetData env i h).2).2).2) := by
  cases hdata : (hget h i).data with
  | some d0 =>
    have hgd : objGetData env i h = (d0, h) := by
      simp [objGetData, hdata]
    cases hct : (objGetCreateTime env i h).1 with
    | some cv =>
      cases hmt : (objGetModTime env i (objGetCreateTime env i h).2).1 with
      | some mv =>
        simp [ffm_file_to_dict, hgd, hdata, hct, hmt, fileDictCore, optKey,
          dictMerge, dictSet, HASH_FUNCTIONS, ffm_entity_to_dict, objGetData]
      | none =>
        simp [ffm_file_to_dict, hgd, hdata, hct, hmt, fileDictCore, optKey,
          dictMerge, dictSet, HASH_FUNCTIONS, ffm_entity_to_dict, objGetData]
    | none =>
      cases hmt : (objGetModTime env i (objGetCreateTime env i h).2).1 with
      | some mv =>
        simp [ffm_file_to_dict, hgd, hdata, hct, hmt, fileDictCore, optKey,
          dictMerge, dictSet, HASH_FUNCTIONS, ffm_entity_to_dict, objGetData]
      | none =>
        simp [ffm_file_to_dict, hgd, hdata, hct, hmt, fileDictCore, optKey,
          dictMerge, dictSet, HASH_FUNCTIONS, ffm_entity_to_dict, objGetData]
  | none =>
    have hup := hget_objUpdate_self h i
      (fun o => { o with data := some (env.read_file (hget h i).path) }) hib
    have hgd2 : (hget (objGetData env i h).2 i).data
        = some (env.read_file (hget h i).path) := by
      simp [objGetData, hdata, hup]
    cases hct : (objGetCreateTime env i (objGetData env i h).2).1 with
    | some cv =>
      cases hmt : (objGetModTime env i
          (objGetCreateTime env i (objGetData env i h).2).2).1 with
      | some mv =>
        simp only [ffm_file_to_dict, objGetData, hdata] at hct hmt ⊢
        simp [hup, hct, hmt, fileDictCore, optKey, dictMerge, dictSet,
          HASH_FUNCTIONS, ffm_entity_to_dict]
      | none =>
        simp only [ffm_file_to_dict, objGetData, hdata] at hct hmt ⊢
        simp [hup, hct, hmt, fileDictCore, optKey, dictMerge, dictSet,
          HASH_FUNCTIONS, ffm_entity_to_dict]
    | none =>
      cases hmt : (objGetModTime env i
          (objGetCreateTime env i (objGetData env i h).2).2).1 with
      | some mv =>
        simp only [ffm_file_to_dict, objGetData, hdata] at hct hmt ⊢
        simp [hup, hct, hmt, fileDictCore, optKey, dictMerge, dictSet,
          HASH_FUNCTIONS, ffm_entity_to_dict]
      | none =>
        simp only [ffm_file_to_dict, objGetData, hdata] at hct hmt ⊢
        simp [hup, hct, hmt, fileDictCore, optKey, dictMerge, dictSet,
          HASH_FUNCTIONS, ffm_entity_to_dict]

/-! ## Shape preservation through the metadata accessors -/

/-- The object attributes the serializer dispatches on (class, path, payload,
children, reader handle) and the heap size are unchanged between two heaps. -/
def sameShape (i : Nat) (h h' : Heap) : Prop :=
  (hget h' i).kind = (hget h i).kind
  ∧ (hget h' i).path = (hget h i).path
  ∧ (hget h' i).data = (hget h i).data
  ∧ (hget h' i).children = (hget h i).children
  ∧ (hget h' i).fs = (hget h i).fs
  ∧ h'.length = h.length

theorem sameShape_refl (i : Nat) (h : Heap) : sameShape i h h :=
  ⟨rfl, rfl, rfl, rfl, rfl, rfl⟩

theorem sameShape_trans (i : Nat) (h h' h'' : Heap)
    (s1 : sameShape i h h') (s2 : sameShape i h' h'') : sameShape i h h'' := by
  obtain ⟨a1, b1, c1, d1, e1, f1⟩ := s1
  obtain ⟨a2, b2, c2, d2, e2, f2⟩ := s2
  exact ⟨a2.trans a1, b2.trans b1, c2.trans c1, d2.trans d1, e2.trans e1,
    f2.trans f1⟩

theorem sameShape_objUpdate_gen (h : Heap) (i : Nat) (f : Obj → Obj)
    (hk : ∀ o, (f o).kind = o.kind) (hp : ∀ o, (f o).path = o.path)
    (hd : ∀ o, (f o).data = o.data) (hc : ∀ o, (f o).children = o.children)
    (hf : ∀ o, (f o).fs = o.fs) :
    sameShape i h (objUpdate h i f) := by
  unfold sameShape objUpdate
  rw [hget_set]
  refine ⟨?_, ?_, ?_, ?_, ?_, by simp⟩
  · split <;> simp [hk]
  · split <;> simp [hp]
  · split <;> simp [hd]
  · split <;> simp [hc]
  · split <;> simp [hf]

theorem sameShape_objStat (env : Env) (i : Nat) (h : Heap) :
    sameShape i h (objStat env i h).2 := by
  cases hs : (hget h i).stat_result with
  | some s =>
    simp [objStat, hs, sameShape_refl]
  | none =>
    have heq : (objStat env i h).2
        = objUpdate h i (fun o => { o with stat_result := some (env.stat (hget h i).path) }) := by
      simp [objStat, hs]
    rw [heq]
    exact sameShape_objUpdate_gen h i _ (fun o => rfl) (fun o => rfl)
      (fun o => rfl) (fun o => rfl) (fun o => rfl)

theorem sameShape_objGetCreateTime (env : Env) (i : Nat) (h : Heap) :
    sameShape i h (objGetCreateTime env i h).2 := by
  by_cases he : (hget h i).create_time = some ""
  · simp [objGetCreateTime, he, sameShape_refl]
  · cases hc : (hget h i).create_time with
    | some v =>
      have hv : v ≠ "" := fun hq => he (by rw [hc, hq])
      rw [show (objGetCreateTime env i h).2 = h from by
        simp [objGetCreateTime, he, hc, hv]]
      exact sameShape_refl i h
    | none =>
      have heq : (objGetCreateTime env i h).2
          = objUpdate (objStat env i h).2 i (fun o => { o with create_time := some (env.fmtTime (objStat env i h).1.st_ctime) }) := by
        simp [objGetCreateTime, he, hc]
      rw [heq]
      exact sameShape_trans i h (objStat env i h).2 _
        (sameShape_objStat env i h)
        (sameShape_objUpdate_gen _ i _ (fun o => rfl) (fun o => rfl)
          (fun o => rfl) (fun o => rfl) (fun o => rfl))

theorem sameShape_objGetModTime (env : Env) (i : Nat) (h : Heap) :
    sameShape i h (objGetModTime env i h).2 := by
  by_cases he : (hget h i).mod_time = some ""
  · simp [objGetModTime, he, sameShape_refl]
  · cases hc : (hget h i).mod_time with
    | some v =>
      have hv : v ≠ "" := fun hq => he (by rw [hc, hq])
      rw [show (objGetModTime env i h).2 = h from by
        simp [objGetModTime, he, hc, hv]]
      exact sameShape_refl i h
    | none =>
      have heq : (objGetModTime env i h).2
          = objUpdate (objStat env i h).2 i (fun o => { o with mod_time := some (env.fmtTime (objStat env i h).1.st_mtime) }) := by
        simp [objGetModTime, he, hc]
      rw [heq]
      exact sameShape_trans i h (objStat env i h).2 _
        (sameShape_objStat env i h)
        (sameShape_objUpdate_gen _ i _ (fun o => rfl) (fun o => rfl)
          (fun o => rfl) (fun o => rfl) (fun o => rfl))

/-- `FFM_File.to_dict` with an already-present payload changes none of the
attributes the serializer dispatches on. -/
theorem ffm_file_to_dict_shape (env : Env) (i : Nat) (h : Heap) (d : List Nat)
    (hd : (hget h i).data = some d) :
    sameShape i h (ffm_file_to_dict env i h).2 := by
  have heq : (ffm_file_to_dict env i h).2
      = (objGetModTime env i (objGetCreateTime env i h).2).2 := by
    simp [ffm_file_to_dict, objGetData, hd]
  rw [heq]
  exact sameShape_trans i h (objGetCreateTime env i h).2 _
    (sameShape_objGetCreateTime env i h)
    (sameShape_objGetModTime env i (objGetCreateTime env i h).2)

/-! ## Realizing and serializing a fresh container with an empty reader -/

/-- `FFM_NiemaFS.__iter__` on an unrealized container with a present payload:
the reader is opened from the decompressed payload, and with an empty record
stream the children list is empty; the reader handle is stored on the
object. -/
theorem mkNfsIter_opened_empty (env : Env) (prev : Funcs) (fmt path : String)
    (i : Nat) (H : Heap) (d dd : List Nat) (rdr : Reader)
    (hchild : (hget H i).children = none)
    (hfs : (hget H i).fs = none)
    (hkind : (hget H i).kind = .nfs fmt)
    (hpath : (hget H i).path = path)
    (hd : (hget H i).data = some d)
    (hdec : decompress env path d = .ok dd)
    (hopen : env.open_fs fmt dd = some rdr)
    (hrec : rdr.records = []) :
    mkNfsIter env prev i H =
      .ok ([], objUpdate (objUpdate H i (fun o => { o with fs := some rdr })) i (fun o => { o with children := some [] })) := by
  simp [mkNfsIter, objGetData, hchild, hfs, hkind, hpath, hd, hdec, hopen,
    hrec, nfsLoop]

/-- `to_dict` of a fresh, unrealized container allocated at the top of the
heap, whose payload is present and whose reader stream is empty, in closed
form: the `FFM_File` entries over the raw payload, then `children`, then the
reader's extra fields (for the formats that query any), then `format`
overwritten last; the opened reader handle ends stored on the object. -/
theorem mkToDict_fresh_empty (env : Env) (prev : Funcs) (fmt path : String)
    (d dd : List Nat) (rdr : Reader) (h : Heap)
    (hdec : decompress env path d = .ok dd)
    (hopen : env.open_fs fmt dd = some rdr)
    (hrec : rdr.records = []) :
    ∃ (h' : Heap) (ct mt : Option String),
      mkToDict env prev h.length (h ++ [mkNfsObj fmt path (some d)])
        = .ok (dictSet
            (if fmt = "ISO" ∨ fmt = "GCM" ∨ fmt = "WII" then
              rdr.extras.foldl (fun o kv => dictSet o kv.1 kv.2)
                (dictSet (fileDictCore env (pathName path) d ++ optKey "create_time" ct ++ optKey "mod_time" mt) "children" (JVal.arr []))
            else
              dictSet (fileDictCore env (pathName path) d ++ optKey "create_time" ct ++ optKey "mod_time" mt) "children" (JVal.arr []))
            "format" (JVal.s fmt), h')
      ∧ (hget h' h.length).fs = some rdr := by
  set i := h.length with hi
  set H := h ++ [mkNfsObj fmt path (some d)] with hH
  have hib : i < H.length := by
    rw [hH, hi]
    simp
  have hdH : (hget H i).data = some d := fresh_nfs_data h fmt path (some d)
  have hkindH : (hget H i).kind = .nfs fmt := fresh_nfs_kind h fmt path (some d)
  have hpathH : (hget H i).path = path := fresh_nfs_path h fmt path (some d)
  have hgd : objGetData env i H = (d, H) := by
    simp [objGetData, hdH]
  have heq := ffm_file_to_dict_eq env i H hib
  rw [hgd] at heq
  simp only at heq
  rw [hpathH] at heq
  have hshape := ffm_file_to_dict_shape env i H d hdH
  rw [heq] at hshape
  simp only at hshape
  obtain ⟨sk, sp, sd, sc, sf, sl⟩ := hshape
  set h1 := (objGetModTime env i (objGetCreateTime env i H).2).2 with hh1
  have hiter : mkNfsIter env prev i h1
      = .ok ([], objUpdate (objUpdate h1 i (fun o => { o with fs := some rdr })) i (fun o => { o with children := some [] })) := by
    refine mkNfsIter_opened_empty env prev fmt path i h1 d dd rdr ?_ ?_ ?_ ?_ ?_ hdec hopen hrec
    · rw [sc]
      exact fresh_nfs_children h fmt path (some d)
    · rw [sf]
      exact fresh_nfs_fs h fmt path (some d)
    · rw [sk]
      exact hkindH
    · rw [sp]
      exact hpathH
    · rw [sd]
      exact hdH
  have hib1 : i < h1.length := by
    rw [sl]
    exact hib
  have hib1' : i < (objUpdate h1 i (fun o => { o with fs := some rdr })).length := by
    unfold objUpdate
    simpa using hib1
  have hfs2 : (hget (objUpdate (objUpdate h1 i (fun o => { o with fs := some rdr })) i (fun o => { o with children := some [] })) i).fs = some rdr := by
    rw [hget_objUpdate_self _ _ _ hib1']
    simp only
    rw [hget_objUpdate_self _ _ _ hib1]
  refine ⟨_, (objGetCreateTime env i H).1,
    (objGetModTime env i (objGetCreateTime env i H).2).1, ?_, hfs2⟩
  simp only [mkToDict, hkindH, heq, hiter, mapToDict, hfs2, dictMerge,
    List.foldl_cons, List.foldl_nil]

/-! ## Key-set facts about the serialized dictionaries -/

theorem fileDictCore_keys (env : Env) (nm : String) (d : List Nat) :
    dictKeys (fileDictCore env nm d)
      = ["name", "format", "size", "crc32", "md5", "sha1", "sha256"] := by
  simp [fileDictCore, dictKeys]

theorem dictKeys_self_mem_dictSet (d : JDict) (k : String) (v : JVal) :
    k ∈ dictKeys (dictSet d k v) := by
  by_cases hk : k ∈ dictKeys d
  · rw [dictKeys_dictSet_mem d k v hk]
    exact hk
  · rw [dictKeys_dictSet_not_mem d k v hk]
    simp

theorem base1_keys (env : Env) (nm : String) (d : List Nat) (ct mt : Option String) :
    dictKeys (dictSet (fileDictCore env nm d ++ optKey "create_time" ct ++ optKey "mod_time" mt) "children" (JVal.arr []))
      = ["name", "format", "size", "crc32", "md5", "sha1", "sha256"]
        ++ dictKeys (optKey "create_time" ct) ++ dictKeys (optKey "mod_time" mt)
        ++ ["children"] := by
  rw [dictKeys_dictSet_not_mem]
  · simp [dictKeys, fileDictCore]
  · cases ct <;> cases mt <;>
      simp [dictKeys, fileDictCore, optKey]

theorem base1_filter (env : Env) (nm : String) (d : List Nat) (ct mt : Option String) :
    (dictKeys (dictSet (fileDictCore env nm d ++ optKey "create_time" ct ++ optKey "mod_time" mt) "children" (JVal.arr []))).filter
        (fun k => hashKeyList.contains k) = hashKeyList := by
  rw [base1_keys]
  cases ct <;> cases mt <;> simp [optKey, dictKeys] <;> rfl

theorem base1_hash_sub (env : Env) (nm : String) (d : List Nat) (ct mt : Option String) :
    ∀ k ∈ hashKeyList,
      k ∈ dictKeys (dictSet (fileDictCore env nm d ++ optKey "create_time" ct ++ optKey "mod_time" mt) "children" (JVal.arr [])) := by
  intro k hk
  rw [base1_keys]
  simp [hashKeyList] at hk
  rcases hk with rfl | rfl | rfl | rfl <;> simp

theorem base1_format_mem (env : Env) (nm : String) (d : List Nat) (ct mt : Option String) :
    "format" ∈ dictKeys (dictSet (fileDictCore env nm d ++ optKey "create_time" ct ++ optKey "mod_time" mt) "children" (JVal.arr [])) := by
  rw [base1_keys]
  simp

theorem base1_lookup (env : Env) (nm : String) (d : List Nat)
    (ct mt : Option String) (k : String) (v : JVal)
    (hk : k ≠ "children")
    (hfound : dictLookup (fileDictCore env nm d) k = some v) :
    dictLookup (dictSet (fileDictCore env nm d ++ optKey "create_time" ct ++ optKey "mod_time" mt) "children" (JVal.arr [])) k = some v := by
  rw [dictLookup_dictSet_ne _ _ _ _ hk]
  exact dictLookup_append_of_mem _ _ _ _ (dictLookup_append_of_mem _ _ _ _ hfound)

/-! ## C4: hashes and size come from the raw stored payload -/

/-- C4: every serialized file (and container, which serializes through the
same code) reports `size` as the length of its realized raw payload and each
of the four hashes computed over those same bytes; for a container behind a
recognized compression wrapper, the decompressed bytes are used only to open
the reader (the stored handle is the one the opener returned for them),
while `size` and every hash still come from the raw payload. -/
theorem c4_raw_payload_hash_size :
    (∀ (env : Env) (i : Nat) (h : Heap), i < h.length →
      dictLookup (ffm_file_to_dict env i h).1 "size"
          = some (JVal.n (objGetData env i h).1.length)
      ∧ dictLookup (ffm_file_to_dict env i h).1 "crc32"
          = some (JVal.s ("0x" ++ env.crc32hex (objGetData env i h).1))
      ∧ dictLookup (ffm_file_to_dict env i h).1 "md5"
          = some (JVal.s ("0x" ++ env.md5hex (objGetData env i h).1))
      ∧ dictLookup (ffm_file_to_dict env i h).1 "sha1"
          = some (JVal.s ("0x" ++ env.sha1hex (objGetData env i h).1))
      ∧ dictLookup (ffm_file_to_dict env i h).1 "sha256"
          = some (JVal.s ("0x" ++ env.sha256hex (objGetData env i h).1)))
    ∧ (∀ (env : Env) (prev : Funcs) (fmt path : String) (d dd : List Nat)
        (h : Heap),
        clean_ext (pySuffix path) = "GZ" →
        env.gzip_d d = some dd →
        env.open_fs fmt dd = some ⟨[], []⟩ →
        ∃ (D : JDict) (h' : Heap),
          mkToDict env prev h.length (h ++ [mkNfsObj fmt path (some d)])
            = .ok (D, h')
          ∧ dictLookup D "size" = some (JVal.n d.length)
          ∧ dictLookup D "crc32" = some (JVal.s ("0x" ++ env.crc32hex d))
          ∧ dictLookup D "md5" = some (JVal.s ("0x" ++ env.md5hex d))
          ∧ dictLookup D "sha1" = some (JVal.s ("0x" ++ env.sha1hex d))
          ∧ dictLookup D "sha256" = some (JVal.s ("0x" ++ env.sha256hex d))
          ∧ (hget h' h.length).fs = some ⟨[], []⟩) := by
  constructor
  · intro env i h hib
    rw [ffm_file_to_dict_eq env i h hib]
    refine ⟨?_, ?_, ?_, ?_, ?_⟩ <;>
      exact dictLookup_append_of_mem _ _ _ _
        (dictLookup_append_of_mem _ _ _ _ (by simp [fileDictCore, dictLookup]))
  · intro env prev fmt path d dd h hgz hdd hopen
    have hdec : decompress env path d = .ok dd := by
      simp [decompress, hgz, hdd]
    obtain ⟨h', ct, mt, hEq, hfs⟩ :=
      mkToDict_fresh_empty env prev fmt path d dd ⟨[], []⟩ h hdec hopen rfl
    rw [show (⟨[], []⟩ : Reader).extras = ([] : JDict) from rfl] at hEq
    simp only [List.foldl_nil, ite_self] at hEq
    refine ⟨_, h', hEq, ?_, ?_, ?_, ?_, ?_, hfs⟩ <;>
      · rw [dictLookup_dictSet_ne _ _ _ _ (by decide)]
        exact base1_lookup env (pathName path) d ct mt _ _ (by decide)
          (by simp [fileDictCore, dictLookup])

/-- Witness environment for the C4 container part: gzip decompresses to
`[9]`, and only `[9]` opens as a (member-less) container. -/
def envW4 : Env :=
  { baseEnv with
    gzip_d := fun _ => some [9],
    open_fs := (fun _ b => if b = [9] then some ⟨[], []⟩ else none) }

/-- Witness for C4 at concrete inputs. -/
theorem c4_witness :
    (dictLookup (ffm_file_to_dict baseEnv 0 [mkFileObj "f" (some [1, 2])]).1 "size"
        = some (JVal.n (objGetData baseEnv 0 [mkFileObj "f" (some [1, 2])]).1.length)
      ∧ dictLookup (ffm_file_to_dict baseEnv 0 [mkFileObj "f" (some [1, 2])]).1 "crc32"
        = some (JVal.s ("0x" ++ baseEnv.crc32hex (objGetData baseEnv 0 [mkFileObj "f" (some [1, 2])]).1))
      ∧ dictLookup (ffm_file_to_dict baseEnv 0 [mkFileObj "f" (some [1, 2])]).1 "md5"
        = some (JVal.s ("0x" ++ baseEnv.md5hex (objGetData baseEnv 0 [mkFileObj "f" (some [1, 2])]).1))
      ∧ dictLookup (ffm_file_to_dict baseEnv 0 [mkFileObj "f" (some [1, 2])]).1 "sha1"
        = some (JVal.s ("0x" ++ baseEnv.sha1hex (objGetData baseEnv 0 [mkFileObj "f" (some [1, 2])]).1))
      ∧ dictLookup (ffm_file_to_dict baseEnv 0 [mkFileObj "f" (some [1, 2])]).1 "sha256"
        = some (JVal.s ("0x" ++ baseEnv.sha256hex (objGetData baseEnv 0 [mkFileObj "f" (some [1, 2])]).1)))
    ∧ (∃ (D : JDict) (h' : Heap),
        mkToDict envW4 bottomFuncs 0 ([] ++ [mkNfsObj "TAR" "x.tar.gz" (some [1, 2, 3])])
          = .ok (D, h')
        ∧ dictLookup D "size" = some (JVal.n [1, 2, 3].length)
        ∧ dictLookup D "crc32" = some (JVal.s ("0x" ++ envW4.crc32hex [1, 2, 3]))
        ∧ dictLookup D "md5" = some (JVal.s ("0x" ++ envW4.md5hex [1, 2, 3]))
        ∧ dictLookup D "sha1" = some (JVal.s ("0x" ++ envW4.sha1hex [1, 2, 3]))
        ∧ dictLookup D "sha256" = some (JVal.s ("0x" ++ envW4.sha256hex [1, 2, 3]))
        ∧ (hget h' ([] : Heap).length).fs = some ⟨[], []⟩) :=
  ⟨c4_raw_payload_hash_size.1 baseEnv 0 [mkFileObj "f" (some [1, 2])] (by decide),
   c4_raw_payload_hash_size.2 envW4 bottomFuncs "TAR" "x.tar.gz" [1, 2, 3] [9] []
     (by decide) rfl rfl⟩

/-! ## C7: the format tag is written last -/

/-- C7: serializing a container first emits the file entries and the
children list, then the reader-supplied extra fields (for the formats that
query any), and writes the `format` key with the concrete tag last, so the
serialized `format` value equals the container's tag for every possible
extras list — even one containing a key named `format`. -/
theorem c7_format_overwritten_last (env : Env) (prev : Funcs)
    (fmt path : String) (d : List Nat) (ex : JDict) (h : Heap)
    (hng : clean_ext (pySuffix path) ≠ "GZ")
    (hnx : clean_ext (pySuffix path) ≠ "XZ")
    (hopen : env.open_fs fmt d = some ⟨[], ex⟩) :
    ∃ (D : JDict) (h' : Heap),
      mkToDict env prev h.length (h ++ [mkNfsObj fmt path (some d)])
        = .ok (D, h')
      ∧ dictLookup D "format" = some (JVal.s fmt)
      ∧ "children" ∈ dictKeys D := by
  have hdec := decompress_id env path d hng hnx
  obtain ⟨h', ct, mt, hEq, hfs⟩ :=
    mkToDict_fresh_empty env prev fmt path d d ⟨[], ex⟩ h hdec hopen rfl
  refine ⟨_, h', hEq, dictLookup_dictSet_self _ _ _, ?_⟩
  apply dictKeys_mem_dictSet
  split
  · apply dictKeys_mem_foldl
    exact dictKeys_self_mem_dictSet _ _ _
  · exact dictKeys_self_mem_dictSet _ _ _

/-- Witness environment for C7: every byte string opens as a container whose
extras include a field literally named `format`. -/
def envW7 : Env :=
  { baseEnv with
    open_fs := fun _ _ => some ⟨[], [("format", JVal.s "EVIL"), ("extra", JVal.n 7)]⟩ }

/-- Witness for C7: an ISO container whose reader injects a `format` extra
still serializes `format = "ISO"`. -/
theorem c7_witness :
    ∃ (D : JDict) (h' : Heap),
      mkToDict envW7 bottomFuncs 0 ([] ++ [mkNfsObj "ISO" "disc.iso" (some [4])])
        = .ok (D, h')
      ∧ dictLookup D "format" = some (JVal.s "ISO")
      ∧ "children" ∈ dictKeys D :=
  c7_format_overwritten_last envW7 bottomFuncs "ISO" "disc.iso" [4]
    [("format", JVal.s "EVIL"), ("extra", JVal.n 7)] []
    (by decide) (by decide) rfl

/-! ## C10: exactly the four hash keys, in alphabetical order -/

/-- C10: the serialized dictionary of a FILE node, and of a container node,
always contains exactly the four hash keys `crc32`, `md5`, `sha1`, `sha256`,
in that (alphabetical) order — never a subset, whatever was accessed before
and whatever extra fields a reader supplies. -/
theorem c10_four_hash_keys :
    (∀ (env : Env) (i : Nat) (h : Heap), i < h.length →
      (dictKeys (ffm_file_to_dict env i h).1).filter
          (fun k => hashKeyList.contains k) = hashKeyList)
    ∧ (∀ (env : Env) (prev : Funcs) (fmt path : String) (d : List Nat)
        (ex : JDict) (h : Heap),
        clean_ext (pySuffix path) ≠ "GZ" →
        clean_ext (pySuffix path) ≠ "XZ" →
        env.open_fs fmt d = some ⟨[], ex⟩ →
        ∃ (D : JDict) (h' : Heap),
          mkToDict env prev h.length (h ++ [mkNfsObj fmt path (some d)])
            = .ok (D, h')
          ∧ (dictKeys D).filter (fun k => hashKeyList.contains k) = hashKeyList) := by
  constructor
  · intro env i h hib
    rw [ffm_file_to_dict_eq env i h hib]
    simp only
    cases hct : (objGetCreateTime env i (objGetData env i h).2).1 <;>
      cases hmt : (objGetModTime env i (objGetCreateTime env i (objGetData env i h).2).2).1 <;>
      · simp [dictKeys, fileDictCore, optKey, List.filter_append]
        rfl
  · intro env prev fmt path d ex h hng hnx hopen
    have hdec := decompress_id env path d hng hnx
    obtain ⟨h', ct, mt, hEq, hfs⟩ :=
      mkToDict_fresh_empty env prev fmt path d d ⟨[], ex⟩ h hdec hopen rfl
    refine ⟨_, h', hEq, ?_⟩
    rw [dictKeys_dictSet_mem]
    · split
      · rw [filter_dictKeys_foldl hashKeyList _ _
          (base1_hash_sub env (pathName path) d ct mt)]
        exact base1_filter env (pathName path) d ct mt
      · exact base1_filter env (pathName path) d ct mt
    · split
      · apply dictKeys_mem_foldl
        exact base1_format_mem env (pathName path) d ct mt
      · exact base1_format_mem env (pathName path) d ct mt

/-- Witness for C10 at concrete inputs. -/
theorem c10_witness :
    (dictKeys (ffm_file_to_dict baseEnv 0 [mkFileObj "f" (some [1, 2])]).1).filter
        (fun k => hashKeyList.contains k) = hashKeyList
    ∧ (∃ (D : JDict) (h' : Heap),
        mkToDict envW7 bottomFuncs 0 ([] ++ [mkNfsObj "ISO" "disc.iso" (some [4])])
          = .ok (D, h')
        ∧ (dictKeys D).filter (fun k => hashKeyList.contains k) = hashKeyList) :=
  ⟨c10_four_hash_keys.1 baseEnv 0 [mkFileObj "f" (some [1, 2])] (by decide),
   c10_four_hash_keys.2 envW7 bottomFuncs "ISO" "disc.iso" [4]
     [("format", JVal.s "EVIL"), ("extra", JVal.n 7)] []
     (by decide) (by decide) rfl⟩

end FFM
